import Mathlib

/-!
Verification of the step-sequencer timeline core of PyVolcaDrum.

This file is a shallow embedding, in Lean 4, of `src/modules/parts.py`
(class `Step` and class `Parts`) together with the argument validators of
`src/modules/common.py`.  The Qt widget grid is modelled as a function from
(part number, step number) to a `Step` record; the Qt timer is modelled by
its interval, its active flag and — where a method consults the wall clock —
an explicit `remaining_time` argument.  Methods that can raise Python
exceptions (`ValueError` / `TypeError` / `ZeroDivisionError`) are modelled
in the `Except String` monad; the message carried is the Python exception
message.  Signals (`note_on`, `overridden_values_found`) are modelled as an
explicit list of emitted events.  Persisted documents are modelled by the
`Document` structure whose scalar fields are `JVal` values, so that a field
holding a value of the wrong type (as an arbitrary JSON document may) is
representable.
-/

namespace PyVolcaDrum

/-- A JSON-ish scalar: an integer, or a value of some other type (represented
by a string), so that malformed document fields can be expressed. -/
inductive JVal where
  | jint (n : Nat)
  | jstr (s : String)
deriving Repr, DecidableEq

/-- The overridden-values payload attached to a step: a nested mapping of
layer name to (parameter name to integer value), as produced by the controls
panel.  Only its shape and emptiness matter to the sequencer core. -/
abbrev Payload := List (String × List (String × Nat))

/-- Python truthiness of an optional dict: `None` and `{}` are falsy. -/
def payloadTruthy : Option Payload → Bool
  | none => false
  | some p => !p.isEmpty

/-- One cell of the sequencer grid (class `Step` of `src/modules/parts.py`):
a checkable button (`enabled`), an optional `overridden-values` property, and
the cosmetic strong-beat marker. -/
structure Step where
  enabled : Bool
  overriddenValues : Option Payload
  isStrong : Bool
deriving Repr, DecidableEq

/-- `Step.mark_as_strong` (src/modules/parts.py:23-25). -/
def Step.mark_as_strong (st : Step) (is_strong : Bool) : Step :=
  { st with isStrong := is_strong }

/-- `Step.set_overridden_values` (src/modules/parts.py:27-29): the property is
stored exactly as given (the button text is cosmetic and not modelled). -/
def Step.set_overridden_values (st : Step) (overridden_values : Option Payload) : Step :=
  { st with overriddenValues := overridden_values }

/-- `Step.get_overridden_values` (src/modules/parts.py:31-32). -/
def Step.get_overridden_values (st : Step) : Option Payload :=
  st.overriddenValues

/-- A freshly constructed `Step` widget: unchecked, no `overridden-values`
property (src/modules/parts.py:13-21). -/
def freshStep (is_strong : Bool) : Step :=
  { enabled := false, overriddenValues := none, isStrong := is_strong }

/-- `check_int_value` (src/modules/common.py:16-29), for a value that is known
to be an `int`.  Raises `ValueError` with the Python message otherwise. -/
def check_int_value (name : String) (value : Nat) (min_value max_value : Option Nat) :
    Except String Unit :=
  match min_value, max_value with
  | some lo, some hi =>
      if lo ≤ value ∧ value ≤ hi then .ok ()
      else .error (name ++ " must be in the range from " ++ toString lo ++ " to " ++ toString hi)
  | some lo, none =>
      if value < lo then .error (name ++ " must be greater or equal to " ++ toString lo) else .ok ()
  | none, some hi =>
      if value > hi then .error (name ++ " must be less or equal to " ++ toString hi) else .ok ()
  | none, none => .ok ()

/-- `check_int_value` applied to a document value whose type is not known:
the `isinstance` check raises `TypeError` on a non-int (src/modules/common.py:19-20). -/
def check_int_value_j (name : String) (value : JVal) (min_value max_value : Option Nat) :
    Except String Nat :=
  match value with
  | .jstr _ => .error (name ++ " must be of type int")
  | .jint n => do
      check_int_value name n min_value max_value
      pure n

/-- `Parts.__part_count` (src/modules/parts.py:92). -/
def part_count : Nat := 6

/-- `Parts.__part_numbers = list(range(1, 7))` (src/modules/parts.py:93). -/
def part_numbers : List Nat := [1, 2, 3, 4, 5, 6]

/-- `Parts.__min_step_count` (src/modules/parts.py:94). -/
def min_step_count : Nat := 16

/-- `Parts.__max_step_count` (src/modules/parts.py:95). -/
def max_step_count : Nat := 1024

instance {e a : Type} [DecidableEq e] [DecidableEq a] : DecidableEq (Except e a) := fun x y =>
  match x, y with
  | .ok v, .ok w =>
      if h : v = w then .isTrue (by rw [h]) else .isFalse (by intro hh; cases hh; exact h rfl)
  | .error v, .error w =>
      if h : v = w then .isTrue (by rw [h]) else .isFalse (by intro hh; cases hh; exact h rfl)
  | .ok _, .error _ => .isFalse (by intro hh; cases hh)
  | .error _, .ok _ => .isFalse (by intro hh; cases hh)

/-- The state of a `Parts` widget (src/modules/parts.py:86-300).
`grid part step` is the `Step` widget at layout position
`(part - 1, step)`; it is only ever consulted for `part` in 1..6 and
`step` in 1..step_count (`step_at` validates its arguments), so values
outside that rectangle are unobservable — exactly as widgets removed from
the layout are.  `partChecked` models the per-part check boxes in column 0,
`interval`/`timerActive` model the `QTimer`. -/
@[ext]
structure Parts where
  step_count : Nat
  bpm : Nat
  current_step_number : Nat
  interval : Nat
  timerActive : Bool
  partChecked : Nat → Bool
  grid : Nat → Nat → Step

/-- An event emitted through a Qt signal of `Parts`. -/
inductive Event where
  | note_on (part : Nat)
  | overridden_values_found (part : Nat) (values : Payload)
deriving Repr, DecidableEq

/-- Point update of the grid function. -/
def updGrid (g : Nat → Nat → Step) (part step : Nat) (v : Step) : Nat → Nat → Step :=
  fun p s => if p = part ∧ s = step then v else g p s

/-- `Parts.step_at` (src/modules/parts.py:151-154). -/
def Parts.step_at (p : Parts) (part_number step_number : Nat) : Except String Step := do
  check_int_value "part_number" part_number (some 1) (some part_count)
  check_int_value "step_number" step_number (some 1) (some p.step_count)
  pure (p.grid part_number step_number)

/-- `Parts.__init__` (src/modules/parts.py:97-126).  Every cell is a fresh
step whose strong marker is `((step_number - 1) % bpm) == 0`; every part
check box is checked; the timer is created stopped and `change_tempo(60)`
sets its interval to `60000 // 60`. -/
def Parts.init (initial_step_count initial_bpm : JVal) : Except String Parts := do
  let sc ← check_int_value_j "initial_step_count" initial_step_count
    (some min_step_count) (some max_step_count)
  let b ← check_int_value_j "initial_bpm" initial_bpm (some 2) (some min_step_count)
  pure
    { step_count := sc
      bpm := b
      current_step_number := 1
      interval := 60000 / 60
      timerActive := false
      partChecked := fun _ => true
      grid := fun _ step => freshStep (decide ((step - 1) % b = 0)) }

/-- `Parts.tempo` (src/modules/parts.py:209-211): `60000 // interval`. -/
def Parts.tempo (p : Parts) : Nat := 60000 / p.interval

/-- `Parts.change_tempo` (src/modules/parts.py:213-214): `60000 // new_tempo`. -/
def Parts.change_tempo (p : Parts) (new_tempo : Nat) : Parts :=
  { p with interval := 60000 / new_tempo }

/-- `Parts.play` (src/modules/parts.py:216-217). -/
def Parts.play (p : Parts) : Parts :=
  { p with timerActive := true }

/-- `Parts.__go_to` (src/modules/parts.py:238-241); the playhead radio button
is cosmetic and not modelled. -/
def Parts.go_to (p : Parts) (step_number : Nat) : Except String Parts := do
  check_int_value "step_number" step_number (some 1) (some p.step_count)
  pure { p with current_step_number := step_number }

/-- `Parts.stop` (src/modules/parts.py:219-221): stop the timer, go to step 1. -/
def Parts.stop (p : Parts) : Except String Parts :=
  Parts.go_to { p with timerActive := false } 1

/-- The strong-marker recomputation pass of `change_step_count`
(src/modules/parts.py:176-178): every cell of the (new) grid rectangle gets
`mark_as_strong(((step_number - 1) % new_bpm) == 0)`. -/
def markStrong (g : Nat → Nat → Step) (new_step_count new_bpm : Nat) : Nat → Nat → Step :=
  fun part step =>
    if 1 ≤ part ∧ part ≤ part_count ∧ 1 ≤ step ∧ step ≤ new_step_count then
      (g part step).mark_as_strong (decide ((step - 1) % new_bpm = 0))
    else g part step

/-- The growth branch of `change_step_count` (src/modules/parts.py:164-168):
fresh step widgets are appended for step numbers `old_count+1 .. new_count`,
their strong marker computed from the bpm still in effect. -/
def growGrid (g : Nat → Nat → Step) (old_count new_count bpm : Nat) : Nat → Nat → Step :=
  fun part step =>
    if 1 ≤ part ∧ part ≤ part_count ∧ old_count + 1 ≤ step ∧ step ≤ new_count then
      freshStep (decide ((step - 1) % bpm = 0))
    else g part step

/-- `Parts.change_step_count` (src/modules/parts.py:156-181).  The shrink
branch removes widgets beyond the new count; those grid positions become
unobservable (every access goes through `step_at`), so the model leaves the
function values in place, and the growth branch overwrites that range with
fresh steps — exactly as the layout gets fresh widgets.  The
`step_count_changed` signal carries no state and is not modelled. -/
def Parts.change_step_count (p : Parts) (new_step_count new_bpm : Nat) :
    Except String Parts := do
  check_int_value "new_step_count" new_step_count (some min_step_count) (some max_step_count)
  check_int_value "new_bpm" new_bpm (some 2) (some min_step_count)
  if new_step_count = p.step_count ∧ new_bpm = p.bpm then
    pure p
  else do
    let step_count_change_requested := new_step_count ≠ p.step_count
    let p1 ← if step_count_change_requested then p.stop else pure p
    let g1 :=
      if p1.step_count < new_step_count then
        growGrid p1.grid p1.step_count new_step_count p1.bpm
      else p1.grid
    pure { p1 with
      step_count := new_step_count
      bpm := new_bpm
      grid := markStrong g1 new_step_count new_bpm }

/-- The inner `move_step` closure of `Parts.__move_steps`
(src/modules/parts.py:188-196): resolve source and destination cells (out of
the 1..step_count range means `None`), copy checked state and overridden
values onto the destination, then clear the source. -/
def moveCell (step_count part : Nat) (src_step_number dst_step_number : Int)
    (g : Nat → Nat → Step) : Nat → Nat → Step :=
  let src : Option Step :=
    if 1 ≤ src_step_number ∧ src_step_number ≤ (step_count : Int) then
      some (g part src_step_number.toNat)
    else none
  let g1 :=
    if 1 ≤ dst_step_number ∧ dst_step_number ≤ (step_count : Int) then
      let d := dst_step_number.toNat
      updGrid g part d
        { g part d with
          enabled := match src with | some st => st.enabled | none => false
          overriddenValues := match src with | some st => st.overriddenValues | none => none }
    else g
  if 1 ≤ src_step_number ∧ src_step_number ≤ (step_count : Int) then
    let s := src_step_number.toNat
    updGrid g1 part s { g1 part s with enabled := false, overriddenValues := none }
  else g1

/-- Python `list(range(a, b))` over integers. -/
def int_range (a b : Int) : List Int :=
  (List.range (b - a).toNat).map (fun (i : Nat) => a + (i : Int))

/-- `Parts.__move_steps` (src/modules/parts.py:183-199): for every part, move
each step of the source range by `distance`; the range is walked in reverse
(descending) order when the distance is positive. -/
def Parts.move_steps (p : Parts) (position distance : Int) : Parts :=
  let src_step_range :=
    int_range position
      ((p.step_count : Int) + (if distance < 0 then (distance.natAbs : Int) else 0) + 1)
  let src_step_range := if 0 < distance then src_step_range.reverse else src_step_range
  { p with grid :=
      (part_numbers.foldl
        (fun g part =>
          src_step_range.foldl
            (fun g s => moveCell p.step_count part s (s + distance) g) g)
        p.grid) }

/-- `Parts.__insert_steps` (src/modules/parts.py:201-203), returning the
raised exception (if any) together with the state the object is left in:
the step count is validated and grown before any cell moves, so a failing
insertion leaves the state untouched. -/
def Parts.insert_steps_run (p : Parts) (position : Int) (steps_to_insert : Nat) :
    Option String × Parts :=
  match p.change_step_count (p.step_count + steps_to_insert) p.bpm with
  | .ok p1 => (none, p1.move_steps (position + 1) (steps_to_insert : Int))
  | .error e => (some e, p)

/-- `Parts.__delete_steps` (src/modules/parts.py:205-207), returning the
raised exception (if any) together with the state the object is left in:
the cells are shifted left first, so a failing step-count validation leaves
the shifted state behind. -/
def Parts.delete_steps_run (p : Parts) (position : Int) (steps_to_delete : Nat) :
    Option String × Parts :=
  let p1 := p.move_steps (position + (steps_to_delete : Int)) (-(steps_to_delete : Int))
  match p1.change_step_count (p1.step_count - steps_to_delete) p1.bpm with
  | .ok p2 => (none, p2)
  | .error e => (some e, p1)

/-- `Parts.__insert_steps` as a fallible operation. -/
def Parts.insert_steps (p : Parts) (position : Int) (steps_to_insert : Nat) :
    Except String Parts :=
  match p.insert_steps_run position steps_to_insert with
  | (none, p1) => .ok p1
  | (some e, _) => .error e

/-- `Parts.__delete_steps` as a fallible operation. -/
def Parts.delete_steps (p : Parts) (position : Int) (steps_to_delete : Nat) :
    Except String Parts :=
  match p.delete_steps_run position steps_to_delete with
  | (none, p1) => .ok p1
  | (some e, _) => .error e

/-- `Parts.enable_current_step` (src/modules/parts.py:223-233).
`remaining_time` is the value `self.__timer.remainingTime()` would report;
`remainingTime() > interval() / 2` (exact float halving) is the integer test
`2 * remaining_time > interval`. -/
def Parts.enable_current_step (p : Parts) (part_number : Nat) (remaining_time : Nat) :
    Except String (Parts × List Event) := do
  check_int_value "part_number" part_number (some 1) (some part_count)
  let events := [Event.note_on part_number]
  if p.timerActive = false then
    pure (p, events)
  else do
    let insert_to_the_previous_step := 2 * remaining_time > p.interval
    let step_number :=
      if insert_to_the_previous_step then
        if p.current_step_number = 1 then p.step_count else p.current_step_number - 1
      else p.current_step_number
    let st ← p.step_at part_number step_number
    pure ({ p with grid := updGrid p.grid part_number step_number { st with enabled := true } },
      events)

/-- The loop body of `Parts.__do_step` for one enabled part
(src/modules/parts.py:247-253). -/
def do_step_part (p : Parts) (acc : List Event) (part : Nat) : Except String (List Event) := do
  let step ← p.step_at part p.current_step_number
  let acc :=
    match step.get_overridden_values with
    | some v => if v.isEmpty then acc else acc ++ [Event.overridden_values_found part v]
    | none => acc
  pure (if step.enabled then acc ++ [Event.note_on part] else acc)

/-- `Parts.__do_step` (src/modules/parts.py:243-254): fired on each timer
tick.  Emits, for each checked part in order, the `overridden_values_found`
event when the cell's payload is truthy and the `note_on` event when the
cell is checked, then advances the playhead with wrap-around. -/
def Parts.do_step (p : Parts) : Except String (Parts × List Event) := do
  let enabled_parts := part_numbers.filter (fun part => p.partChecked part)
  let events ← enabled_parts.foldlM (do_step_part p) []
  let p1 ← p.go_to
    (if p.current_step_number = p.step_count then 1 else p.current_step_number + 1)
  pure (p1, events)

/-- The persisted document (the dict produced by `Parts.store` /
consumed by `Parts.restore`, src/modules/parts.py:256-300).  Scalar fields
are `JVal` so a malformed (non-int) field is representable; a `none` field
is an absent key. -/
instance : DecidableEq Payload := inferInstance

instance : DecidableEq (List (String × List (Nat × Payload))) := inferInstance

structure Document where
  step_count : Option JVal
  beats_per_measure : Option JVal
  tempo : Option JVal
  enabled_parts : Option (List Nat)
  enabled_steps : Option (List (String × List Nat))
  overridden_controls : Option (List (String × List (Nat × Payload)))
deriving Repr, DecidableEq

/-- The Python key `f'part{part_number}'`. -/
def part_key (part_number : Nat) : String := "part" ++ toString part_number

/-- The `overridden-controls` entry `store` collects for the cell
`(part, s)`: the pair `(s, payload)` exactly when the payload is truthy
(src/modules/parts.py:273-275). -/
def store_override_entry (p : Parts) (part s : Nat) : Option (Nat × Payload) :=
  match (p.grid part s).get_overridden_values with
  | some v => if v.isEmpty then none else some (s, v)
  | none => none

/-- `Parts.store` (src/modules/parts.py:256-279): per-part lists of checked
step numbers and of (step number, truthy payload) pairs are collected in
step order; empty per-part entries are dropped, and the `enabled-steps` /
`overridden-controls` keys are deleted entirely when nothing remains. -/
def Parts.store (p : Parts) : Document :=
  let enabled_steps_all := part_numbers.map (fun part =>
    (part_key part, (List.range' 1 p.step_count).filter (fun s => (p.grid part s).enabled)))
  let overridden_all := part_numbers.map (fun part =>
    (part_key part, (List.range' 1 p.step_count).filterMap (store_override_entry p part)))
  let enabled_steps := enabled_steps_all.filter (fun kv => !kv.2.isEmpty)
  let overridden := overridden_all.filter (fun kv => !kv.2.isEmpty)
  { step_count := some (.jint p.step_count)
    beats_per_measure := some (.jint p.bpm)
    tempo := some (.jint (min 360 (max 60 p.tempo)))
    enabled_parts := some (part_numbers.filter (fun part => p.partChecked part))
    enabled_steps := if enabled_steps.isEmpty then none else some enabled_steps
    overridden_controls := if overridden.isEmpty then none else some overridden }

/-- `60000 // v` on a document value: `TypeError` on a non-int,
`ZeroDivisionError` on 0. -/
def floordiv_60000 (v : JVal) : Except String Nat :=
  match v with
  | .jint n => if n = 0 then .error "integer division or modulo by zero" else .ok (60000 / n)
  | .jstr _ => .error "unsupported operand type(s) for //: int and str"

/-- One iteration of the restore loop over enabled steps
(src/modules/parts.py:294-295): `parts.step_at(...).setChecked(True)`. -/
def restore_enable_step (part : Nat) (q : Parts) (step_number : Nat) : Except String Parts := do
  let st ← q.step_at part step_number
  pure { q with grid := updGrid q.grid part step_number { st with enabled := true } }

/-- One iteration of the restore loop over overridden controls
(src/modules/parts.py:297-298): `parts.step_at(...).set_overridden_values(...)`. -/
def restore_override_step (part : Nat) (q : Parts) (kv : Nat × Payload) : Except String Parts := do
  let st ← q.step_at part kv.1
  pure { q with grid := updGrid q.grid part kv.1 (st.set_overridden_values (some kv.2)) }

/-- The body of the per-part restore loop (src/modules/parts.py:291-298). -/
def restore_part (stored_values : Document) (sc : Nat) (q : Parts) (part : Nat) :
    Except String Parts := do
  let enabled_steps := ((stored_values.enabled_steps.getD []).lookup (part_key part)).getD []
  let q ← (enabled_steps.filter (fun x => x ≤ sc)).foldlM (restore_enable_step part) q
  let overridden_controls :=
    ((stored_values.overridden_controls.getD []).lookup (part_key part)).getD []
  (overridden_controls.filter (fun kv => kv.1 ≤ sc)).foldlM (restore_override_step part) q

/-- `Parts.restore` (src/modules/parts.py:281-300).  A document without a
`step-count` key restores no engine (`none`); otherwise a fresh `Parts` is
built from `step-count` and `beats-per-measure` (default 4), the timer
interval is set from `tempo` (default 60), the part check boxes from
`enabled-parts` (default: all parts), and the per-part enabled steps and
overridden controls — filtered to step numbers not exceeding the stored
step count — are applied through `step_at`. -/
def Parts.restore (stored_values : Document) : Except String (Option Parts) :=
  match stored_values.step_count with
  | none => pure none
  | some sc_val => do
    let parts ← Parts.init sc_val (stored_values.beats_per_measure.getD (.jint 4))
    let sc := parts.step_count
    let new_interval ← floordiv_60000 (stored_values.tempo.getD (.jint 60))
    let parts := { parts with interval := new_interval }
    let enabled_parts := stored_values.enabled_parts.getD part_numbers
    let parts := { parts with
      partChecked := fun n =>
        if 1 ≤ n ∧ n ≤ part_count then decide (n ∈ enabled_parts) else parts.partChecked n }
    let parts ← part_numbers.foldlM (restore_part stored_values sc) parts
    pure (some parts)

/-! ## Proof toolkit -/

set_option maxRecDepth 40000

lemma check_int_value_ok {name : String} {v lo hi : Nat} (h1 : lo ≤ v) (h2 : v ≤ hi) :
    check_int_value name v (some lo) (some hi) = .ok () := by
  show (if lo ≤ v ∧ v ≤ hi then (Except.ok ()) else _) = _
  rw [if_pos ⟨h1, h2⟩]

lemma check_int_value_err {name : String} {v lo hi : Nat} (h : ¬(lo ≤ v ∧ v ≤ hi)) :
    check_int_value name v (some lo) (some hi) =
      .error (name ++ " must be in the range from " ++ toString lo ++ " to " ++ toString hi) := by
  show (if lo ≤ v ∧ v ≤ hi then _ else _) = _
  rw [if_neg h]

lemma step_at_ok {p : Parts} {part s : Nat}
    (h1 : 1 ≤ part) (h2 : part ≤ 6) (h3 : 1 ≤ s) (h4 : s ≤ p.step_count) :
    p.step_at part s = .ok (p.grid part s) := by
  unfold Parts.step_at
  rw [show part_count = 6 from rfl, check_int_value_ok h1 h2, check_int_value_ok h3 h4]
  rfl

lemma go_to_ok {p : Parts} {s : Nat} (h3 : 1 ≤ s) (h4 : s ≤ p.step_count) :
    p.go_to s = .ok { p with current_step_number := s } := by
  unfold Parts.go_to
  rw [check_int_value_ok h3 h4]
  rfl

lemma stop_ok {p : Parts} (h : 1 ≤ p.step_count) :
    p.stop = .ok { p with timerActive := false, current_step_number := 1 } := by
  unfold Parts.stop
  rw [go_to_ok (p := { p with timerActive := false }) le_rfl h]

/-- `change_step_count` under valid arguments: the call never fails, is the
identity when both values are unchanged, stops playback exactly when the
step count changes, resizes the grid and recomputes the strong markers. -/
lemma change_step_count_ok {p : Parts} {nc nb : Nat}
    (hp : 1 ≤ p.step_count)
    (hnc1 : 16 ≤ nc) (hnc2 : nc ≤ 1024) (hnb1 : 2 ≤ nb) (hnb2 : nb ≤ 16) :
    p.change_step_count nc nb =
      .ok (if nc = p.step_count ∧ nb = p.bpm then p
        else
          { step_count := nc
            bpm := nb
            current_step_number := if nc = p.step_count then p.current_step_number else 1
            interval := p.interval
            timerActive := if nc = p.step_count then p.timerActive else false
            partChecked := p.partChecked
            grid := markStrong
              (if p.step_count < nc then growGrid p.grid p.step_count nc p.bpm else p.grid)
              nc nb }) := by
  unfold Parts.change_step_count
  rw [show min_step_count = 16 from rfl, show max_step_count = 1024 from rfl,
    check_int_value_ok hnc1 hnc2, check_int_value_ok hnb1 hnb2]
  by_cases hno : nc = p.step_count ∧ nb = p.bpm
  · rw [if_pos hno]
    simp only [if_pos hno]
    rfl
  · rw [if_neg hno]
    simp only [if_neg hno]
    by_cases hchg : nc = p.step_count
    · have : ¬(nc ≠ p.step_count) := by simpa using hchg
      rw [if_neg this]
      simp only [if_pos hchg]
      rfl
    · have : (nc ≠ p.step_count) := hchg
      rw [if_pos this, stop_ok hp]
      simp only [if_neg hchg]
      rfl

@[simp] lemma markStrong_enabled (g : Nat → Nat → Step) (nc nb part s : Nat) :
    (markStrong g nc nb part s).enabled = (g part s).enabled := by
  unfold markStrong Step.mark_as_strong
  split <;> rfl

@[simp] lemma markStrong_ov (g : Nat → Nat → Step) (nc nb part s : Nat) :
    (markStrong g nc nb part s).overriddenValues = (g part s).overriddenValues := by
  unfold markStrong Step.mark_as_strong
  split <;> rfl

lemma markStrong_isStrong (g : Nat → Nat → Step) {nc nb part s : Nat}
    (h1 : 1 ≤ part) (h2 : part ≤ 6) (h3 : 1 ≤ s) (h4 : s ≤ nc) :
    (markStrong g nc nb part s).isStrong = decide ((s - 1) % nb = 0) := by
  unfold markStrong Step.mark_as_strong
  rw [if_pos ⟨h1, h2, h3, h4⟩]

lemma growGrid_lo (g : Nat → Nat → Step) {oc nc b part s : Nat} (h : s ≤ oc) :
    growGrid g oc nc b part s = g part s := by
  unfold growGrid
  rw [if_neg (by omega)]

lemma growGrid_hi (g : Nat → Nat → Step) {oc nc b part s : Nat}
    (h1 : 1 ≤ part) (h2 : part ≤ 6) (h3 : oc + 1 ≤ s) (h4 : s ≤ nc) :
    growGrid g oc nc b part s = freshStep (decide ((s - 1) % b = 0)) := by
  unfold growGrid
  rw [if_pos ⟨h1, h2, h3, h4⟩]


/-- The effect of `move_step` on the destination cell: enabled flag and
overridden values are copied, the strong marker of the destination stays. -/
def copyCell (src dst : Step) : Step :=
  { dst with enabled := src.enabled, overriddenValues := src.overriddenValues }

/-- The effect of `move_step` on a cleared cell. -/
def clearCell (dst : Step) : Step :=
  { dst with enabled := false, overriddenValues := none }

@[simp] lemma copyCell_copyCell (a b c : Step) : copyCell a (copyCell b c) = copyCell a c := rfl

@[simp] lemma copyCell_clearCell (a b : Step) : copyCell a (clearCell b) = copyCell a b := rfl

@[simp] lemma clearCell_copyCell (a b : Step) : clearCell (copyCell a b) = clearCell b := rfl

@[simp] lemma clearCell_clearCell (a : Step) : clearCell (clearCell a) = clearCell a := rfl

@[simp] lemma copyCell_enabled (a b : Step) : (copyCell a b).enabled = a.enabled := rfl

@[simp] lemma copyCell_ov (a b : Step) : (copyCell a b).overriddenValues = a.overriddenValues := rfl

@[simp] lemma clearCell_enabled (a : Step) : (clearCell a).enabled = false := rfl

@[simp] lemma clearCell_ov (a : Step) : (clearCell a).overriddenValues = none := rfl

/-- Pointwise description of `moveCell` applied with destination
`src + distance` for a positive distance. -/
lemma moveCell_add_apply (count part x n : Nat) (hx : 1 ≤ x) (hn : 1 ≤ n)
    (g : Nat → Nat → Step) (pt s : Nat) :
    moveCell count part (x : Int) ((x : Int) + (n : Int)) g pt s =
      if pt = part ∧ s = x ∧ x ≤ count then clearCell (g pt s)
      else if pt = part ∧ s = x + n ∧ x + n ≤ count then
        (if x ≤ count then copyCell (g part x) (g pt s) else clearCell (g pt s))
      else g pt s := by
  unfold moveCell updGrid
  simp only [show (1 ≤ (x : Int) ∧ (x : Int) ≤ (count : Int)) ↔ x ≤ count from by omega,
    show (1 ≤ (x : Int) + (n : Int) ∧ (x : Int) + (n : Int) ≤ (count : Int)) ↔ x + n ≤ count
      from by omega,
    show ((x : Int)).toNat = x from by omega,
    show ((x : Int) + (n : Int)).toNat = x + n from by omega]
  by_cases h1 : x ≤ count <;> by_cases h2 : x + n ≤ count <;>
    simp only [h1, h2, if_true, if_false, and_true, and_false] <;>
    by_cases hp : pt = part <;>
    by_cases hsx : s = x <;>
    by_cases hsn : s = x + n <;>
    subst_vars <;>
    simp only [copyCell, clearCell, if_true, if_false, and_true, and_false, true_and,
      false_and, and_self, eq_self_iff_true, if_pos, if_neg] <;>
    (try split_ifs) <;>
    first
      | rfl
      | (exfalso; omega)

/-- Pointwise description of `moveCell` applied with destination
`src - distance` for a negative distance (here `n = -distance`, `x ≥ n+1`). -/
lemma moveCell_sub_apply (count part x n : Nat) (hx : n + 1 ≤ x) (hn : 1 ≤ n)
    (g : Nat → Nat → Step) (pt s : Nat) :
    moveCell count part (x : Int) ((x : Int) - (n : Int)) g pt s =
      if pt = part ∧ s = x ∧ x ≤ count then clearCell (g pt s)
      else if pt = part ∧ s = x - n ∧ x - n ≤ count then
        (if x ≤ count then copyCell (g part x) (g pt s) else clearCell (g pt s))
      else g pt s := by
  unfold moveCell updGrid
  simp only [show (1 ≤ (x : Int) ∧ (x : Int) ≤ (count : Int)) ↔ x ≤ count from by omega,
    show (1 ≤ (x : Int) - (n : Int) ∧ (x : Int) - (n : Int) ≤ (count : Int)) ↔ x - n ≤ count
      from by omega,
    show ((x : Int)).toNat = x from by omega,
    show ((x : Int) - (n : Int)).toNat = x - n from by omega]
  by_cases h1 : x ≤ count <;> by_cases h2 : x - n ≤ count <;>
    simp only [h1, h2, if_true, if_false, and_true, and_false] <;>
    by_cases hp : pt = part <;>
    by_cases hsx : s = x <;>
    by_cases hsn : s = x - n <;>
    subst_vars <;>
    simp only [copyCell, clearCell, if_true, if_false, and_true, and_false, true_and,
      false_and, and_self, eq_self_iff_true, if_pos, if_neg] <;>
    (try split_ifs) <;>
    first
      | rfl
      | (exfalso; omega)


set_option maxHeartbeats 2000000

lemma foldl_moveCell_desc (count n part : Nat) (hn : 1 ≤ n) :
    ∀ (m a : Nat) (g : Nat → Nat → Step), 1 ≤ a → a + m = count + 1 →
      ∀ pt s,
        (((List.range' a m).reverse).foldl
            (fun h (x : Nat) => moveCell count part (x : Int) ((x : Int) + (n : Int)) h) g) pt s
          = if pt = part ∧ a ≤ s ∧ s ≤ count then
              (if a + n ≤ s then copyCell (g part (s - n)) (g part s) else clearCell (g part s))
            else g pt s := by
  intro m
  induction m with
  | zero =>
      intro a g ha hm pt s
      simp only [List.range', List.reverse_nil, List.foldl_nil]
      rw [if_neg (by omega)]
  | succ m ih =>
      intro a g ha hm pt s
      rw [List.range'_succ, List.reverse_cons, List.foldl_append, List.foldl_cons,
        List.foldl_nil]
      have hF := ih (a + 1) g (by omega) (by omega)
      rw [moveCell_add_apply count part a n ha hn]
      simp only [hF]
      by_cases hpt : pt = part <;>
        by_cases hsa : s = a <;>
        by_cases hsn : s = a + n <;>
        subst_vars <;>
        split_ifs <;>
        first
          | rfl
          | (exfalso; omega)
          | (simp only [copyCell_clearCell, clearCell_clearCell, clearCell_copyCell,
              copyCell_copyCell]
             first
               | rfl
               | (congr 2 <;> omega))


lemma foldl_moveCell_asc (count n part : Nat) (hn : 1 ≤ n) :
    ∀ (m a : Nat) (g : Nat → Nat → Step), n + 1 ≤ a → a + m = count + n + 1 →
      ∀ pt s,
        ((List.range' a m).foldl
            (fun h (x : Nat) => moveCell count part (x : Int) ((x : Int) - (n : Int)) h) g) pt s
          = if pt = part ∧ a - n ≤ s ∧ s ≤ count then
              (if s + n ≤ count then copyCell (g part (s + n)) (g part s)
                else clearCell (g part s))
            else g pt s := by
  intro m
  induction m with
  | zero =>
      intro a g ha hm pt s
      simp only [List.range', List.foldl_nil]
      rw [if_neg (by omega)]
  | succ m ih =>
      intro a g ha hm pt s
      rw [List.range'_succ, List.foldl_cons]
      have hG := moveCell_sub_apply count part a n ha hn g
      have hF := ih (a + 1) (moveCell count part (a : Int) ((a : Int) - (n : Int)) g)
        (by omega) (by omega) pt s
      rw [hF]
      simp only [hG]
      by_cases hpt : pt = part <;>
        by_cases hs1 : s = a <;>
        by_cases hs2 : s = a - n <;>
        subst_vars <;>
        (try rw [show a - n + n = a from by omega]) <;>
        split_ifs <;>
        first
          | rfl
          | (exfalso; omega)
          | ((try simp only [copyCell_clearCell, clearCell_clearCell, clearCell_copyCell,
              copyCell_copyCell])
             first
               | rfl
               | omega
               | (congr 2 <;> omega))


/-- A fold over distinct part numbers of a per-part row transformation acts
row by row. -/
lemma parts_foldl_rows (F : Nat → (Nat → Nat → Step) → Nat → Nat → Step)
    (rowF : (Nat → Step) → Nat → Step)
    (hF : ∀ part g pt s, F part g pt s = if pt = part then rowF (g part) s else g pt s) :
    ∀ (l : List Nat), l.Nodup → ∀ (g : Nat → Nat → Step) (pt s : Nat),
      (l.foldl (fun h part => F part h) g) pt s =
        if pt ∈ l then rowF (g pt) s else g pt s := by
  intro l
  induction l with
  | nil =>
      intro _ g pt s
      simp
  | cons hd tl ih =>
      intro hnd g pt s
      have hhd : hd ∉ tl := (List.nodup_cons.mp hnd).1
      rw [List.foldl_cons, ih (List.nodup_cons.mp hnd).2]
      by_cases hmem : pt ∈ tl
      · rw [if_pos hmem, if_pos (List.mem_cons_of_mem hd hmem)]
        have hne : pt ≠ hd := fun h => hhd (h ▸ hmem)
        have hrow : F hd g pt = g pt := by
          funext s2
          rw [hF, if_neg hne]
        rw [hrow]
      · rw [if_neg hmem, hF]
        by_cases hph : pt = hd
        · rw [if_pos hph, if_pos (by rw [hph]; exact List.mem_cons_self hd tl), hph]
        · rw [if_neg hph, if_neg (by simp [hph, hmem])]

/-- The row-level semantics of a rightward shift by `n` starting at `q`
(the descending pass of `__move_steps` with positive distance). -/
def shiftRowPos (count q n : Nat) (row : Nat → Step) : Nat → Step := fun s =>
  if q ≤ s ∧ s ≤ count then
    (if q + n ≤ s then copyCell (row (s - n)) (row s) else clearCell (row s))
  else row s

/-- The row-level semantics of a leftward shift by `n` anchored at `q`
(the ascending pass of `__move_steps` with negative distance). -/
def shiftRowNeg (count q n : Nat) (row : Nat → Step) : Nat → Step := fun s =>
  if q - n ≤ s ∧ s ≤ count then
    (if s + n ≤ count then copyCell (row (s + n)) (row s) else clearCell (row s))
  else row s

lemma int_range_natCast (a b : Nat) :
    int_range (a : Int) (b : Int) = (List.range' a (b - a)).map (fun (x : Nat) => (x : Int)) := by
  unfold int_range
  rw [show ((b : Int) - (a : Int)).toNat = b - a from by omega, List.range'_eq_map_range]
  rw [List.map_map]
  apply List.map_congr_left
  intro x hx
  simp

/-- `__move_steps` with a positive distance `n` from position `q`:
every part row of the grid is shifted right by `n` from `q`. -/
lemma move_steps_pos (p : Parts) (q n : Nat) (hq : 1 ≤ q) (hn : 1 ≤ n)
    (hqc : q ≤ p.step_count + 1) :
    p.move_steps (q : Int) (n : Int) =
      { p with grid := fun pt s =>
          if pt ∈ part_numbers then shiftRowPos p.step_count q n (p.grid pt) s
          else p.grid pt s } := by
  have h1 : ¬ ((n : Int) < 0) := by omega
  have h2 : (0 : Int) < (n : Int) := by omega
  simp only [Parts.move_steps, if_neg h1, if_pos h2]
  congr 1
  funext pt s
  rw [show (p.step_count : Int) + 0 + 1 = ((p.step_count + 1 : Nat) : Int) from by push_cast; ring]
  rw [int_range_natCast, ← List.map_reverse]
  simp only [List.foldl_map]
  exact parts_foldl_rows
    (fun part g => ((List.range' q (p.step_count + 1 - q)).reverse).foldl
      (fun h (x : Nat) => moveCell p.step_count part (x : Int) ((x : Int) + (n : Int)) h) g)
    (shiftRowPos p.step_count q n)
    (by
      intro part g pt2 s2
      beta_reduce
      rw [foldl_moveCell_desc p.step_count n part hn (p.step_count + 1 - q) q g hq (by omega)]
      unfold shiftRowPos
      by_cases hp2 : pt2 = part
      · subst hp2
        rw [if_pos rfl]
        by_cases hc : q ≤ s2 ∧ s2 ≤ p.step_count
        · rw [if_pos ⟨rfl, hc.1, hc.2⟩, if_pos hc]
        · rw [if_neg (by tauto), if_neg hc]
      · rw [if_neg (by tauto), if_neg hp2])
    part_numbers (by decide) p.grid pt s

/-- `__move_steps` with a negative distance `-n` from position `q`:
every part row of the grid is shifted left by `n`. -/
lemma move_steps_neg (p : Parts) (q n : Nat) (hq : n + 1 ≤ q) (hn : 1 ≤ n)
    (hqc : q ≤ p.step_count + n + 1) :
    p.move_steps (q : Int) (-(n : Int)) =
      { p with grid := fun pt s =>
          if pt ∈ part_numbers then shiftRowNeg p.step_count q n (p.grid pt) s
          else p.grid pt s } := by
  have h1 : ((-(n : Int)) < 0) := by omega
  have h2 : ¬ ((0 : Int) < (-(n : Int))) := by omega
  simp only [Parts.move_steps, if_pos h1, if_neg h2]
  congr 1
  funext pt s
  rw [show (p.step_count : Int) + (((-(n : Int)).natAbs : Nat) : Int) + 1
      = ((p.step_count + n + 1 : Nat) : Int) from by
    rw [Int.natAbs_neg, Int.natAbs_ofNat]
    push_cast
    ring]
  rw [int_range_natCast]
  simp only [List.foldl_map]
  simp only [← sub_eq_add_neg]
  exact parts_foldl_rows
    (fun part g => (List.range' q (p.step_count + n + 1 - q)).foldl
      (fun h (x : Nat) => moveCell p.step_count part (x : Int) ((x : Int) - (n : Int)) h) g)
    (shiftRowNeg p.step_count q n)
    (by
      intro part g pt2 s2
      beta_reduce
      rw [foldl_moveCell_asc p.step_count n part hn (p.step_count + n + 1 - q) q g hq (by omega)]
      unfold shiftRowNeg
      by_cases hp2 : pt2 = part
      · subst hp2
        rw [if_pos rfl]
        by_cases hc : q - n ≤ s2 ∧ s2 ≤ p.step_count
        · rw [if_pos ⟨rfl, hc.1, hc.2⟩, if_pos hc]
        · rw [if_neg (by tauto), if_neg hc]
      · rw [if_neg (by tauto), if_neg hp2])
    part_numbers (by decide) p.grid pt s


/-! ## Reachable-state invariants and concrete engines -/

/-- The structural bounds every reachable engine state satisfies
(spec data model, established by `__init__` and preserved by every method). -/
def Parts.WF (p : Parts) : Prop :=
  16 ≤ p.step_count ∧ p.step_count ≤ 1024 ∧ 2 ≤ p.bpm ∧ p.bpm ≤ 16 ∧
  1 ≤ p.current_step_number ∧ p.current_step_number ≤ p.step_count ∧ 1 ≤ p.interval

instance (p : Parts) : Decidable p.WF := by
  unfold Parts.WF
  infer_instance

lemma mem_part_numbers_bounds {part : Nat} (h : part ∈ part_numbers) :
    1 ≤ part ∧ part ≤ 6 := by
  simp [part_numbers] at h
  omega

lemma mem_part_numbers_of_bounds {part : Nat} (h1 : 1 ≤ part) (h2 : part ≤ 6) :
    part ∈ part_numbers := by
  simp [part_numbers]
  omega

lemma mem_range1 {s c : Nat} (h1 : 1 ≤ s) (h2 : s ≤ c) : s ∈ List.range' 1 c := by
  rw [List.mem_range']
  exact ⟨s - 1, by omega, by omega⟩

lemma of_mem_range1 {s c : Nat} (h : s ∈ List.range' 1 c) : 1 ≤ s ∧ s ≤ c := by
  rw [List.mem_range'] at h
  obtain ⟨i, hi, rfl⟩ := h
  omega

lemma check_int_value_j_ok {name : String} {v lo hi : Nat} (h1 : lo ≤ v) (h2 : v ≤ hi) :
    check_int_value_j name (.jint v) (some lo) (some hi) = .ok v := by
  show (do check_int_value name v (some lo) (some hi); pure v : Except String Nat) = .ok v
  rw [check_int_value_ok h1 h2]
  rfl

/-- `Parts.__init__` under valid arguments. -/
lemma init_ok {sc bpm : Nat} (hsc1 : 16 ≤ sc) (hsc2 : sc ≤ 1024)
    (hb1 : 2 ≤ bpm) (hb2 : bpm ≤ 16) :
    Parts.init (.jint sc) (.jint bpm) = .ok
      { step_count := sc, bpm := bpm, current_step_number := 1, interval := 60000 / 60,
        timerActive := false, partChecked := fun _ => true,
        grid := fun _ step => freshStep (decide ((step - 1) % bpm = 0)) } := by
  unfold Parts.init
  rw [show min_step_count = 16 from rfl, show max_step_count = 1024 from rfl,
    check_int_value_j_ok hsc1 hsc2, check_int_value_j_ok hb1 hb2]
  rfl

/-- A freshly constructed 16-step, 4-beats-per-measure engine
(`Parts()` with default arguments). -/
def fresh16 : Parts :=
  { step_count := 16, bpm := 4, current_step_number := 1, interval := 1000,
    timerActive := false, partChecked := fun _ => true,
    grid := fun _ step => freshStep (decide ((step - 1) % 4 = 0)) }

lemma init_fresh16 : Parts.init (.jint 16) (.jint 4) = .ok fresh16 := by
  rw [init_ok (by omega) (by omega) (by omega) (by omega)]
  rfl

/-- A 16-step engine with part 1 enabled exactly at steps 1, 5, 9 and 13
(the concrete scenario of the test suite). -/
def pattern16 : Parts :=
  { fresh16 with grid := fun part s =>
      if part = 1 ∧ (s = 1 ∨ s = 5 ∨ s = 9 ∨ s = 13) then
        { fresh16.grid part s with enabled := true }
      else fresh16.grid part s }

/-! ## C6 — freshly constructed engine -/

/-- C6: for every step_count in [16,1024] and bpm in [2,16], a freshly
constructed engine has every cell disabled with no override payload, the
strong marker of step `s` equal to `(s - 1) % bpm == 0`, current step 1 and
tempo 60. -/
theorem C6_fresh_engine (sc bpm : Nat) (hsc1 : 16 ≤ sc) (hsc2 : sc ≤ 1024)
    (hb1 : 2 ≤ bpm) (hb2 : bpm ≤ 16) :
    ∃ p : Parts, Parts.init (.jint sc) (.jint bpm) = .ok p ∧
      p.step_count = sc ∧ p.bpm = bpm ∧ p.current_step_number = 1 ∧ p.tempo = 60 ∧
      ∀ part ∈ part_numbers, ∀ s, 1 ≤ s → s ≤ sc →
        (p.grid part s).enabled = false ∧
        (p.grid part s).get_overridden_values = none ∧
        (p.grid part s).isStrong = decide ((s - 1) % bpm = 0) := by
  refine ⟨_, init_ok hsc1 hsc2 hb1 hb2, rfl, rfl, rfl, (by show (60000:Nat)/(60000/60) = 60; norm_num), ?_⟩
  intro part _ s _ _
  exact ⟨rfl, rfl, rfl⟩

/-- Witness for C6 at the default constructor arguments. -/
theorem C6_fresh_engine_witness :
    (16 ≤ 16 ∧ 16 ≤ 1024 ∧ 2 ≤ 4 ∧ 4 ≤ 16) ∧
    (∃ p : Parts, Parts.init (.jint 16) (.jint 4) = .ok p ∧
      p.step_count = 16 ∧ p.bpm = 4 ∧ p.current_step_number = 1 ∧ p.tempo = 60 ∧
      ∀ part ∈ part_numbers, ∀ s, 1 ≤ s → s ≤ 16 →
        (p.grid part s).enabled = false ∧
        (p.grid part s).get_overridden_values = none ∧
        (p.grid part s).isStrong = decide ((s - 1) % 4 = 0)) :=
  ⟨by omega, C6_fresh_engine 16 4 (by omega) (by omega) (by omega) (by omega)⟩


/-! ## C4 — change_step_count validation, no-op, stop-iff, strong markers -/

/-- C4: `change_step_count(new_count, new_bpm)` fails with a range error when
`new_count` is outside [16,1024] or `new_bpm` is outside [2,16]; it is an
immediate no-op when both values equal the current ones; on success it stops
playback and resets the cursor to step 1 exactly when the step count
changes, and afterwards every step's strong marker is
`((i - 1) % new_bpm) == 0` over the whole grid. -/
theorem C4_change_step_count (p : Parts) (nc nb : Nat) (hWF : p.WF)
    (hstrong : ∀ part ∈ part_numbers, ∀ s ∈ List.range' 1 p.step_count,
      (p.grid part s).isStrong = decide ((s - 1) % p.bpm = 0)) :
    ((¬(16 ≤ nc ∧ nc ≤ 1024) ∨ ¬(2 ≤ nb ∧ nb ≤ 16)) →
      ∃ msg, p.change_step_count nc nb = .error msg) ∧
    (nc = p.step_count → nb = p.bpm → p.change_step_count nc nb = .ok p) ∧
    (16 ≤ nc → nc ≤ 1024 → 2 ≤ nb → nb ≤ 16 →
      ∃ q, p.change_step_count nc nb = .ok q ∧
        q.current_step_number = (if nc = p.step_count then p.current_step_number else 1) ∧
        q.timerActive = (if nc = p.step_count then p.timerActive else false) ∧
        q.step_count = nc ∧ q.bpm = nb ∧
        ∀ part ∈ part_numbers, ∀ s, 1 ≤ s → s ≤ nc →
          (q.grid part s).isStrong = decide ((s - 1) % nb = 0)) := by
  obtain ⟨w1, w2, w3, w4, w5, w6, w7⟩ := hWF
  refine ⟨?_, ?_, ?_⟩
  · intro hbad
    unfold Parts.change_step_count
    rw [show min_step_count = 16 from rfl, show max_step_count = 1024 from rfl]
    rcases hbad with hbad | hbad
    · rw [check_int_value_err hbad]
      exact ⟨_, rfl⟩
    · by_cases hok : 16 ≤ nc ∧ nc ≤ 1024
      · rw [check_int_value_ok hok.1 hok.2, check_int_value_err hbad]
        exact ⟨_, rfl⟩
      · rw [check_int_value_err hok]
        exact ⟨_, rfl⟩
  · intro h1 h2
    rw [change_step_count_ok (by omega) (by omega) (by omega) (by omega) (by omega),
      if_pos ⟨h1, h2⟩]
  · intro hnc1 hnc2 hnb1 hnb2
    rw [change_step_count_ok (by omega) hnc1 hnc2 hnb1 hnb2]
    by_cases hno : nc = p.step_count ∧ nb = p.bpm
    · rw [if_pos hno]
      refine ⟨p, rfl, by rw [if_pos hno.1], by rw [if_pos hno.1], hno.1.symm, hno.2.symm, ?_⟩
      intro part hpart s hs1 hs2
      rw [hstrong part hpart s (mem_range1 hs1 (by omega)), hno.2]
    · rw [if_neg hno]
      refine ⟨_, rfl, rfl, rfl, rfl, rfl, ?_⟩
      intro part hpart s hs1 hs2
      obtain ⟨hp1, hp2⟩ := mem_part_numbers_bounds hpart
      exact markStrong_isStrong _ hp1 hp2 hs1 hs2

/-- Witness for C4: a bpm-only change on the 16-step pattern engine. -/
theorem C4_change_step_count_witness :
    (fresh16.WF ∧ (∀ part ∈ part_numbers, ∀ s ∈ List.range' 1 fresh16.step_count,
        (fresh16.grid part s).isStrong = decide ((s - 1) % fresh16.bpm = 0))) ∧
    (((¬(16 ≤ 16 ∧ 16 ≤ 1024) ∨ ¬(2 ≤ 8 ∧ 8 ≤ 16)) →
      ∃ msg, fresh16.change_step_count 16 8 = .error msg) ∧
    (16 = fresh16.step_count → 8 = fresh16.bpm → fresh16.change_step_count 16 8 = .ok fresh16) ∧
    (16 ≤ 16 → 16 ≤ 1024 → 2 ≤ 8 → 8 ≤ 16 →
      ∃ q, fresh16.change_step_count 16 8 = .ok q ∧
        q.current_step_number =
          (if 16 = fresh16.step_count then fresh16.current_step_number else 1) ∧
        q.timerActive = (if 16 = fresh16.step_count then fresh16.timerActive else false) ∧
        q.step_count = 16 ∧ q.bpm = 8 ∧
        ∀ part ∈ part_numbers, ∀ s, 1 ≤ s → s ≤ 16 →
          (q.grid part s).isStrong = decide ((s - 1) % 8 = 0))) :=
  ⟨⟨by decide, by decide⟩, C4_change_step_count fresh16 16 8 (by decide) (by decide)⟩


/-! ## C7 — resize never reindexes surviving steps -/

/-- C7: growing the grid appends fresh disabled, override-free steps and
leaves the content (enabled flag and override payload) of every surviving
step unchanged; shrinking discards only the tail; shrinking to `m` and then
growing back to the original step count preserves every step with index at
most `m` exactly while the steps beyond `m` come back as fresh defaults. -/
theorem C7_resize_frame (p : Parts) (hWF : p.WF) :
    (∀ nc nb, 16 ≤ nc → nc ≤ 1024 → 2 ≤ nb → nb ≤ 16 →
      ∃ q, p.change_step_count nc nb = .ok q ∧
        (∀ part ∈ part_numbers, ∀ s, 1 ≤ s → s ≤ nc → s ≤ p.step_count →
          (q.grid part s).enabled = (p.grid part s).enabled ∧
          (q.grid part s).get_overridden_values = (p.grid part s).get_overridden_values) ∧
        (∀ part ∈ part_numbers, ∀ s, p.step_count + 1 ≤ s → s ≤ nc →
          (q.grid part s).enabled = false ∧
          (q.grid part s).get_overridden_values = none)) ∧
    (∀ m nb1 nb2, 16 ≤ m → m ≤ p.step_count → 2 ≤ nb1 → nb1 ≤ 16 → 2 ≤ nb2 → nb2 ≤ 16 →
      ∃ q1 q2, p.change_step_count m nb1 = .ok q1 ∧
        q1.change_step_count p.step_count nb2 = .ok q2 ∧
        q2.step_count = p.step_count ∧
        (∀ part ∈ part_numbers, ∀ s, 1 ≤ s → s ≤ m →
          (q2.grid part s).enabled = (p.grid part s).enabled ∧
          (q2.grid part s).get_overridden_values = (p.grid part s).get_overridden_values) ∧
        (∀ part ∈ part_numbers, ∀ s, m + 1 ≤ s → s ≤ p.step_count →
          (q2.grid part s).enabled = false ∧
          (q2.grid part s).get_overridden_values = none)) := by
  obtain ⟨w1, w2, w3, w4, w5, w6, w7⟩ := hWF
  constructor
  · intro nc nb hnc1 hnc2 hnb1 hnb2
    rw [change_step_count_ok (by omega) hnc1 hnc2 hnb1 hnb2]
    by_cases hno : nc = p.step_count ∧ nb = p.bpm
    · rw [if_pos hno]
      exact ⟨p, rfl, fun _ _ _ _ _ _ => ⟨rfl, rfl⟩,
        fun part _ s hs1 hs2 => absurd hs2 (by omega)⟩
    · rw [if_neg hno]
      refine ⟨_, rfl, ?_, ?_⟩
      · intro part hpart s hs1 hs2 hs3
        show (markStrong _ nc nb part s).enabled = _ ∧
          (markStrong _ nc nb part s).get_overridden_values = _
        unfold Step.get_overridden_values
        rw [markStrong_enabled, markStrong_ov]
        by_cases hgrow : p.step_count < nc
        · rw [if_pos hgrow, growGrid_lo _ hs3]
          exact ⟨rfl, rfl⟩
        · rw [if_neg hgrow]
          exact ⟨rfl, rfl⟩
      · intro part hpart s hs1 hs2
        obtain ⟨hp1, hp2⟩ := mem_part_numbers_bounds hpart
        have hgrow : p.step_count < nc := by omega
        show (markStrong _ nc nb part s).enabled = _ ∧
          (markStrong _ nc nb part s).get_overridden_values = _
        unfold Step.get_overridden_values
        rw [markStrong_enabled, markStrong_ov, if_pos hgrow,
          growGrid_hi _ hp1 hp2 hs1 hs2]
        exact ⟨rfl, rfl⟩
  · intro m nb1 nb2 hm1 hm2 hb11 hb12 hb21 hb22
    rw [change_step_count_ok (by omega) hm1 (by omega) hb11 hb12]
    by_cases hno : m = p.step_count ∧ nb1 = p.bpm
    · rw [if_pos hno]
      by_cases hno2 : p.step_count = p.step_count ∧ nb2 = p.bpm
      · have h2nd : p.change_step_count p.step_count nb2 = .ok p := by
          rw [change_step_count_ok (by omega) (by omega) (by omega) hb21 hb22, if_pos hno2]
        exact ⟨p, p, rfl, h2nd, rfl, fun _ _ _ _ _ => ⟨rfl, rfl⟩,
          fun part _ s hs1 hs2 => absurd hs2 (by omega)⟩
      · have h2nd := @change_step_count_ok p p.step_count nb2
          (by omega) (by omega) (by omega) hb21 hb22
        rw [if_neg hno2] at h2nd
        refine ⟨p, _, rfl, h2nd, rfl, ?_, ?_⟩
        · intro part hpart s hs1 hs2
          simp only [Step.get_overridden_values, markStrong_enabled, markStrong_ov]
          rw [if_neg (lt_irrefl p.step_count)]
          exact ⟨rfl, rfl⟩
        · intro part hpart s hs1 hs2
          exact absurd hs2 (by omega)
    · rw [if_neg hno]
      set q1 : Parts :=
        { step_count := m, bpm := nb1
          current_step_number := if m = p.step_count then p.current_step_number else 1
          interval := p.interval
          timerActive := if m = p.step_count then p.timerActive else false
          partChecked := p.partChecked
          grid := markStrong
            (if p.step_count < m then growGrid p.grid p.step_count m p.bpm else p.grid)
            m nb1 } with hq1
      have hq1grid : ∀ part s, (q1.grid part s).enabled = (p.grid part s).enabled ∧
          (q1.grid part s).overriddenValues = (p.grid part s).overriddenValues := by
        intro part s
        show (markStrong _ m nb1 part s).enabled = _ ∧
          (markStrong _ m nb1 part s).overriddenValues = _
        rw [markStrong_enabled, markStrong_ov, if_neg (by omega)]
        exact ⟨rfl, rfl⟩
      have hq1sc : q1.step_count = m := rfl
      have h2nd := @change_step_count_ok q1 p.step_count nb2
        (by rw [hq1sc]; omega) (by omega) (by omega) hb21 hb22
      by_cases hno2 : p.step_count = q1.step_count ∧ nb2 = q1.bpm
      · rw [if_pos hno2] at h2nd
        have hmeq : m = p.step_count := by
          have := hno2.1
          rw [hq1sc] at this
          omega
        refine ⟨q1, q1, rfl, h2nd, by rw [hq1sc, hmeq], ?_, ?_⟩
        · intro part hpart s hs1 hs2
          exact ⟨(hq1grid part s).1, (hq1grid part s).2⟩
        · intro part hpart s hs1 hs2
          exact absurd hs2 (by omega)
      · rw [if_neg hno2] at h2nd
        refine ⟨q1, _, rfl, h2nd, rfl, ?_, ?_⟩
        · intro part hpart s hs1 hs2
          simp only [Step.get_overridden_values, markStrong_enabled, markStrong_ov]
          by_cases hgrow : q1.step_count < p.step_count
          · rw [if_pos hgrow, growGrid_lo _ (show s ≤ q1.step_count from by rw [hq1sc]; omega)]
            exact ⟨(hq1grid part s).1, (hq1grid part s).2⟩
          · rw [if_neg hgrow]
            exact ⟨(hq1grid part s).1, (hq1grid part s).2⟩
        · intro part hpart s hs1 hs2
          obtain ⟨hp1, hp2⟩ := mem_part_numbers_bounds hpart
          have hgrow : q1.step_count < p.step_count := by
            rw [hq1sc]
            omega
          simp only [Step.get_overridden_values, markStrong_enabled, markStrong_ov]
          rw [if_pos hgrow,
            growGrid_hi _ hp1 hp2 (show q1.step_count + 1 ≤ s from by rw [hq1sc]; omega) hs2]
          exact ⟨rfl, rfl⟩


/-- Witness for C7 at the 16-step pattern engine. -/
theorem C7_resize_frame_witness :
    pattern16.WF ∧
    ((∀ nc nb, 16 ≤ nc → nc ≤ 1024 → 2 ≤ nb → nb ≤ 16 →
      ∃ q, pattern16.change_step_count nc nb = .ok q ∧
        (∀ part ∈ part_numbers, ∀ s, 1 ≤ s → s ≤ nc → s ≤ pattern16.step_count →
          (q.grid part s).enabled = (pattern16.grid part s).enabled ∧
          (q.grid part s).get_overridden_values = (pattern16.grid part s).get_overridden_values) ∧
        (∀ part ∈ part_numbers, ∀ s, pattern16.step_count + 1 ≤ s → s ≤ nc →
          (q.grid part s).enabled = false ∧
          (q.grid part s).get_overridden_values = none)) ∧
    (∀ m nb1 nb2, 16 ≤ m → m ≤ pattern16.step_count → 2 ≤ nb1 → nb1 ≤ 16 → 2 ≤ nb2 → nb2 ≤ 16 →
      ∃ q1 q2, pattern16.change_step_count m nb1 = .ok q1 ∧
        q1.change_step_count pattern16.step_count nb2 = .ok q2 ∧
        q2.step_count = pattern16.step_count ∧
        (∀ part ∈ part_numbers, ∀ s, 1 ≤ s → s ≤ m →
          (q2.grid part s).enabled = (pattern16.grid part s).enabled ∧
          (q2.grid part s).get_overridden_values = (pattern16.grid part s).get_overridden_values) ∧
        (∀ part ∈ part_numbers, ∀ s, m + 1 ≤ s → s ≤ pattern16.step_count →
          (q2.grid part s).enabled = false ∧
          (q2.grid part s).get_overridden_values = none))) :=
  ⟨by decide, C7_resize_frame pattern16 (by decide)⟩


/-! ## C9 — enable_current_step (live record gesture) -/

/-- The running 16-step engine used for the C9 counterexample: the timer is
active with interval 1000 ms and the playhead is at step 5 (so the next tick
plays step 5; the step played by the previous tick is step 4). -/
def running16 : Parts := { fresh16 with timerActive := true, current_step_number := 5 }

/-- C9 counterexample: with the remaining time exactly half the interval
(`remaining = 500`, `interval = 1000`), the claim says the target is "the
current one" — the step of the previous tick, step 4 — because the remaining
time is not *less than* half.  The code compares `remainingTime() >
interval/2`, which is false at exactly half, so it marks the *next* tick's
step 5 and leaves step 4 untouched. -/
theorem C9_counterexample :
    2 * 500 = running16.interval ∧
    (running16.enable_current_step 1 500).map
        (fun r => ((r.1.grid 1 5).enabled, (r.1.grid 1 4).enabled, r.2))
      = .ok (true, false, [Event.note_on 1]) := by
  decide

/-- C9 (amended): `enable_current_step(part)` always emits exactly one
note-on event for the part; when the clock is stopped it marks no step; when
the clock is running it marks exactly one step as enabled: the next tick's
step (the current value of the playhead) when the remaining time is at most
half the interval, otherwise the previously played step, with wrap-around at
the pattern boundary. -/
theorem C9_enable_current_step (p : Parts) (part remaining : Nat)
    (hpart1 : 1 ≤ part) (hpart2 : part ≤ 6)
    (hcur1 : 1 ≤ p.current_step_number) (hcur2 : p.current_step_number ≤ p.step_count) :
    (p.timerActive = false → p.enable_current_step part remaining = .ok (p, [Event.note_on part])) ∧
    (p.timerActive = true →
      ∃ target, (target = if 2 * remaining ≤ p.interval then p.current_step_number
          else if p.current_step_number = 1 then p.step_count
          else p.current_step_number - 1) ∧
        p.enable_current_step part remaining =
          .ok ({ p with grid := (updGrid p.grid part target
              { p.grid part target with enabled := true }) }, [Event.note_on part])) := by
  constructor
  · intro hoff
    simp only [Parts.enable_current_step, show part_count = 6 from rfl,
      check_int_value_ok hpart1 hpart2, hoff, if_true]
    rfl
  · intro hon
    have hoff : ¬ (p.timerActive = false) := by rw [hon]; simp
    simp only [Parts.enable_current_step, show part_count = 6 from rfl,
      check_int_value_ok hpart1 hpart2, hon, if_neg hoff]
    by_cases hhalf : 2 * remaining > p.interval
    · rw [if_pos hhalf]
      by_cases h1 : p.current_step_number = 1
      · rw [if_pos h1]
        refine ⟨p.step_count, by rw [if_neg (by omega)], ?_⟩
        rw [step_at_ok hpart1 hpart2 (by omega) le_rfl]
        rfl
      · rw [if_neg h1]
        refine ⟨p.current_step_number - 1, by rw [if_neg (by omega)], ?_⟩
        rw [step_at_ok hpart1 hpart2 (by omega) (by omega)]
        rfl
    · rw [if_neg hhalf]
      refine ⟨p.current_step_number, by rw [if_pos (by omega)], ?_⟩
      rw [step_at_ok hpart1 hpart2 hcur1 hcur2]
      rfl

/-- Witness for C9 at the running pattern engine with 800 ms remaining. -/
theorem C9_enable_current_step_witness :
    (1 ≤ 1 ∧ 1 ≤ 6 ∧ 1 ≤ running16.current_step_number ∧
      running16.current_step_number ≤ running16.step_count) ∧
    ((running16.timerActive = false →
      running16.enable_current_step 1 800 = .ok (running16, [Event.note_on 1])) ∧
    (running16.timerActive = true →
      ∃ target, (target = if 2 * 800 ≤ running16.interval then running16.current_step_number
          else if running16.current_step_number = 1 then running16.step_count
          else running16.current_step_number - 1) ∧
        running16.enable_current_step 1 800 =
          .ok ({ running16 with grid := (updGrid running16.grid 1 target
              { running16.grid 1 target with enabled := true }) }, [Event.note_on 1]))) :=
  ⟨by decide, C9_enable_current_step running16 1 800 (by decide) (by decide)
    (by decide) (by decide)⟩


/-! ## C10 — delete_steps is not atomic on failure, insert_steps is -/

/-- C10: when `step_count - count < 16`, `__delete_steps` raises the
step-count range error only after the left shift of cells has executed, so
the object is left in the shifted state; `__insert_steps` validates and
grows the step count before moving any cell, so an insertion that would
exceed 1024 steps raises with the state untouched.  Concretely, deleting all
16 steps of the pattern engine raises yet clears the previously enabled
cell (1,1). -/
theorem C10_nonatomic_delete :
    (∀ (p : Parts) (pos n : Nat), p.WF → p.step_count < n + 16 →
      p.delete_steps_run (pos : Int) n =
        (some "new_step_count must be in the range from 16 to 1024",
          p.move_steps ((pos : Int) + (n : Int)) (-(n : Int)))) ∧
    (∀ (p : Parts) (pos : Int) (n : Nat), p.WF → 1024 < p.step_count + n →
      p.insert_steps_run pos n =
        (some "new_step_count must be in the range from 16 to 1024", p)) ∧
    ((pattern16.delete_steps_run 1 16).1 =
        some "new_step_count must be in the range from 16 to 1024" ∧
      (pattern16.grid 1 1).enabled = true ∧
      ((pattern16.delete_steps_run 1 16).2.grid 1 1).enabled = false) := by
  refine ⟨?_, ?_, by decide⟩
  · intro p pos n hWF hlt
    simp only [Parts.delete_steps_run]
    have herr : (p.move_steps ((pos : Int) + (n : Int)) (-(n : Int))).change_step_count
        ((p.move_steps ((pos : Int) + (n : Int)) (-(n : Int))).step_count - n)
        (p.move_steps ((pos : Int) + (n : Int)) (-(n : Int))).bpm
        = .error "new_step_count must be in the range from 16 to 1024" := by
      unfold Parts.change_step_count
      rw [show min_step_count = 16 from rfl, show max_step_count = 1024 from rfl,
        check_int_value_err (by
          show ¬(16 ≤ p.step_count - n ∧ _)
          omega)]
      rfl
    rw [herr]
  · intro p pos n hWF hlt
    unfold Parts.insert_steps_run
    have herr : p.change_step_count (p.step_count + n) p.bpm
        = .error "new_step_count must be in the range from 16 to 1024" := by
      unfold Parts.change_step_count
      rw [show min_step_count = 16 from rfl, show max_step_count = 1024 from rfl,
        check_int_value_err (by omega)]
      rfl
    rw [herr]

/-- Witness for C10's universally quantified parts, instantiated at the
pattern engine. -/
theorem C10_nonatomic_delete_witness :
    (pattern16.WF ∧ pattern16.step_count < 16 + 16 ∧ 1024 < pattern16.step_count + 2000) ∧
    pattern16.delete_steps_run ((3 : Nat) : Int) 16 =
      (some "new_step_count must be in the range from 16 to 1024",
        pattern16.move_steps (((3 : Nat) : Int) + ((16 : Nat) : Int)) (-((16 : Nat) : Int))) ∧
    pattern16.insert_steps_run 0 2000 =
      (some "new_step_count must be in the range from 16 to 1024", pattern16) :=
  ⟨⟨by decide, by decide, by decide⟩,
    C10_nonatomic_delete.1 pattern16 3 16 (by decide) (by decide),
    C10_nonatomic_delete.2.1 pattern16 0 2000 (by decide) (by decide)⟩


/-! ## C2 — insert and delete are inverse operations -/

/-- C2: for every engine state, every `k` in [0, step_count] and every
`n ≥ 1` with `step_count + n ≤ 1024`, `insert_steps(k, n)` succeeds and
shifts every part's cells right by `n` from position `k+1` (the descending
pass of `__move_steps`, so no source cell is overwritten before being read —
see `foldl_moveCell_desc`), and a subsequent `delete_steps(k+1, n)` restores
the original enabled flag of every cell.  Concretely: with step_count 16 and
part 1 enabled at {1,5,9,13}, `insert_steps(0,2)` yields part 1 enabled at
{3,7,11,15} and `delete_steps(1,2)` restores {1,5,9,13}. -/
theorem C2_insert_delete_inverse (p : Parts) (k n : Nat) (hWF : p.WF)
    (hk : k ≤ p.step_count) (hn : 1 ≤ n) (hmax : p.step_count + n ≤ 1024) :
    (∃ p1 p2, p.insert_steps (k : Int) n = .ok p1 ∧
      p1.delete_steps ((k + 1 : Nat) : Int) n = .ok p2 ∧
      p1.step_count = p.step_count + n ∧
      (∀ part ∈ part_numbers, ∀ s, 1 ≤ s → s ≤ p.step_count + n →
        (p1.grid part s).enabled =
          (if k + 1 + n ≤ s then (p.grid part (s - n)).enabled
            else if k + 1 ≤ s then false
            else (p.grid part s).enabled)) ∧
      p2.step_count = p.step_count ∧
      (∀ part ∈ part_numbers, ∀ s, 1 ≤ s → s ≤ p.step_count →
        (p2.grid part s).enabled = (p.grid part s).enabled)) ∧
    ((pattern16.insert_steps 0 2).map (fun q =>
        (List.range' 1 q.step_count).filter (fun s => (q.grid 1 s).enabled))
      = .ok [3, 7, 11, 15] ∧
      ((pattern16.insert_steps 0 2).bind (fun q => q.delete_steps 1 2)).map (fun q =>
        (List.range' 1 q.step_count).filter (fun s => (q.grid 1 s).enabled))
      = .ok [1, 5, 9, 13]) := by
  obtain ⟨w1, w2, w3, w4, w5, w6, w7⟩ := hWF
  refine ⟨?_, by decide, by decide⟩
  -- stage A: the grown engine produced by change_step_count inside insert_steps
  have hA : ∃ pA, p.change_step_count (p.step_count + n) p.bpm = .ok pA ∧
      pA.step_count = p.step_count + n ∧ pA.bpm = p.bpm ∧
      ∀ part, 1 ≤ part → part ≤ 6 → ∀ s, s ≤ p.step_count + n →
        (pA.grid part s).enabled
          = (if s ≤ p.step_count then (p.grid part s).enabled else false) := by
    refine ⟨{ step_count := p.step_count + n, bpm := p.bpm,
              current_step_number :=
                (if p.step_count + n = p.step_count then p.current_step_number else 1),
              interval := p.interval,
              timerActive :=
                (if p.step_count + n = p.step_count then p.timerActive else false),
              partChecked := p.partChecked,
              grid := markStrong
                (if p.step_count < p.step_count + n then
                  growGrid p.grid p.step_count (p.step_count + n) p.bpm
                else p.grid)
                (p.step_count + n) p.bpm }, by
      rw [change_step_count_ok (by omega) (by omega) (by omega) (by omega) (by omega),
        if_neg (by omega)], rfl, rfl, ?_⟩
    intro part hb1 hb2 s hsn
    show (markStrong _ _ p.bpm part s).enabled = _
    rw [markStrong_enabled, if_pos (by omega)]
    by_cases hsc : s ≤ p.step_count
    · rw [growGrid_lo _ hsc, if_pos hsc]
    · rw [growGrid_hi _ hb1 hb2 (by omega) hsn, if_neg hsc]
      rfl
  obtain ⟨pA, hAeq, hAsc, hAbpm, hAgrid⟩ := hA
  -- stage B: the rightward shift performed by __move_steps
  have hB : ∃ pB, pA.move_steps ((k + 1 : Nat) : Int) (n : Int) = pB ∧
      pB.step_count = p.step_count + n ∧ pB.bpm = p.bpm ∧
      ∀ part ∈ part_numbers, ∀ s, 1 ≤ s → s ≤ p.step_count + n →
        (pB.grid part s).enabled =
          (if k + 1 + n ≤ s then (p.grid part (s - n)).enabled
            else if k + 1 ≤ s then false
            else (p.grid part s).enabled) := by
    refine ⟨_, move_steps_pos pA (k + 1) n (by omega) hn (by omega), by
        show pA.step_count = _
        omega, by
        show pA.bpm = _
        rw [hAbpm], ?_⟩
    intro part hpn s hs1 hsn
    obtain ⟨hb1, hb2⟩ := mem_part_numbers_bounds hpn
    show (if part ∈ part_numbers then shiftRowPos pA.step_count (k + 1) n (pA.grid part) s
        else pA.grid part s).enabled = _
    rw [if_pos hpn]
    unfold shiftRowPos
    rw [hAsc]
    by_cases hc1 : k + 1 ≤ s ∧ s ≤ p.step_count + n
    · rw [if_pos hc1]
      by_cases hc2 : k + 1 + n ≤ s
      · rw [if_pos hc2, copyCell_enabled, hAgrid part hb1 hb2 (s - n) (by omega),
          if_pos (by omega), if_pos hc2]
      · rw [if_neg hc2, clearCell_enabled, if_neg hc2, if_pos (by omega)]
    · rw [if_neg hc1, hAgrid part hb1 hb2 s (by omega), if_pos (by omega),
        if_neg (by omega), if_neg (by omega)]
  obtain ⟨pB, hBeq, hBsc, hBbpm, hBgrid⟩ := hB
  have hins : p.insert_steps (k : Int) n = .ok pB := by
    simp only [Parts.insert_steps, Parts.insert_steps_run, hAeq]
    rw [show ((k : Int) + 1) = (((k + 1 : Nat)) : Int) from by push_cast; ring, hBeq]
  -- stage C: the leftward shift performed by __move_steps inside delete
  have hC : ∃ pC, pB.move_steps ((k + 1 + n : Nat) : Int) (-(n : Int)) = pC ∧
      pC.step_count = p.step_count + n ∧ pC.bpm = p.bpm ∧
      ∀ part ∈ part_numbers, ∀ s, 1 ≤ s → s ≤ p.step_count →
        (pC.grid part s).enabled = (p.grid part s).enabled := by
    refine ⟨_, move_steps_neg pB (k + 1 + n) n (by omega) hn (by omega), by
        show pB.step_count = _
        omega, by
        show pB.bpm = _
        rw [hBbpm], ?_⟩
    intro part hpn s hs1 hsc
    show (if part ∈ part_numbers then shiftRowNeg pB.step_count (k + 1 + n) n (pB.grid part) s
        else pB.grid part s).enabled = _
    rw [if_pos hpn]
    unfold shiftRowNeg
    rw [hBsc, show k + 1 + n - n = k + 1 from by omega]
    by_cases hc1 : k + 1 ≤ s
    · rw [if_pos ⟨hc1, by omega⟩, if_pos (by omega), copyCell_enabled,
        hBgrid part hpn (s + n) (by omega) (by omega), if_pos (by omega),
        show s + n - n = s from by omega]
    · rw [if_neg (by omega), hBgrid part hpn s hs1 (by omega),
        if_neg (by omega), if_neg (by omega)]
  obtain ⟨pC, hCeq, hCsc, hCbpm, hCgrid⟩ := hC
  -- stage D: the final shrink performed by change_step_count inside delete
  have hD : ∃ pD, pC.change_step_count p.step_count p.bpm = .ok pD ∧
      pD.step_count = p.step_count ∧
      ∀ part ∈ part_numbers, ∀ s, 1 ≤ s → s ≤ p.step_count →
        (pD.grid part s).enabled = (pC.grid part s).enabled := by
    refine ⟨{ step_count := p.step_count, bpm := p.bpm,
              current_step_number :=
                (if p.step_count = pC.step_count then pC.current_step_number else 1),
              interval := pC.interval,
              timerActive :=
                (if p.step_count = pC.step_count then pC.timerActive else false),
              partChecked := pC.partChecked,
              grid := markStrong
                (if pC.step_count < p.step_count then
                  growGrid pC.grid pC.step_count p.step_count pC.bpm
                else pC.grid)
                p.step_count p.bpm }, by
      rw [change_step_count_ok (by omega) (by omega) (by omega) (by omega) (by omega),
        if_neg (by intro hcon; have h1 := hcon.1; omega)], rfl, ?_⟩
    intro part hpn s hs1 hsc
    show (markStrong _ _ p.bpm part s).enabled = _
    rw [markStrong_enabled, if_neg (by omega)]
  obtain ⟨pD, hDeq, hDsc, hDgrid⟩ := hD
  have hdel : pB.delete_steps ((k + 1 : Nat) : Int) n = .ok pD := by
    simp only [Parts.delete_steps, Parts.delete_steps_run]
    rw [show (((k + 1 : Nat)) : Int) + (n : Int) = (((k + 1 + n : Nat)) : Int)
      from by push_cast; ring]
    rw [hCeq, show pC.step_count - n = p.step_count from by omega, hCbpm, hDeq]
  refine ⟨pB, pD, hins, hdel, hBsc, hBgrid, hDsc, ?_⟩
  intro part hpn s hs1 hsc
  rw [hDgrid part hpn s hs1 hsc, hCgrid part hpn s hs1 hsc]


/-- Witness for C2 at the pattern engine, inserting two steps at the front. -/
theorem C2_insert_delete_inverse_witness :
    (pattern16.WF ∧ 0 ≤ pattern16.step_count ∧ 1 ≤ 2 ∧ pattern16.step_count + 2 ≤ 1024) ∧
    ((∃ p1 p2, pattern16.insert_steps ((0 : Nat) : Int) 2 = .ok p1 ∧
      p1.delete_steps ((0 + 1 : Nat) : Int) 2 = .ok p2 ∧
      p1.step_count = pattern16.step_count + 2 ∧
      (∀ part ∈ part_numbers, ∀ s, 1 ≤ s → s ≤ pattern16.step_count + 2 →
        (p1.grid part s).enabled =
          (if 0 + 1 + 2 ≤ s then (pattern16.grid part (s - 2)).enabled
            else if 0 + 1 ≤ s then false
            else (pattern16.grid part s).enabled)) ∧
      p2.step_count = pattern16.step_count ∧
      (∀ part ∈ part_numbers, ∀ s, 1 ≤ s → s ≤ pattern16.step_count →
        (p2.grid part s).enabled = (pattern16.grid part s).enabled)) ∧
    ((pattern16.insert_steps 0 2).map (fun q =>
        (List.range' 1 q.step_count).filter (fun s => (q.grid 1 s).enabled))
      = .ok [3, 7, 11, 15] ∧
      ((pattern16.insert_steps 0 2).bind (fun q => q.delete_steps 1 2)).map (fun q =>
        (List.range' 1 q.step_count).filter (fun s => (q.grid 1 s).enabled))
      = .ok [1, 5, 9, 13])) :=
  ⟨⟨by decide, by decide, by decide, by decide⟩,
    C2_insert_delete_inverse pattern16 0 2 (by decide) (by decide) (by decide) (by decide)⟩


/-! ## C3 — tick semantics -/

/-- The events `__do_step` emits for one enabled part at the current step:
the `overridden_values_found` event when the payload is truthy, then the
`note_on` event when the cell is checked. -/
def ovEvents (part : Nat) : Option Payload → List Event
  | some v => if v.isEmpty then [] else [Event.overridden_values_found part v]
  | none => []

def tickEvents (p : Parts) (part : Nat) : List Event :=
  ovEvents part ((p.grid part p.current_step_number).get_overridden_values) ++
  (if (p.grid part p.current_step_number).enabled then [Event.note_on part] else [])

lemma note_on_mem_tickEvents (p : Parts) (part a : Nat) :
    Event.note_on part ∈ tickEvents p a ↔
      a = part ∧ (p.grid a p.current_step_number).enabled = true := by
  unfold tickEvents
  rw [List.mem_append]
  constructor
  · rintro (h | h)
    · exfalso
      rcases hov : (p.grid a p.current_step_number).get_overridden_values with _ | v <;>
        rw [hov] at h
      · exact (List.not_mem_nil _) h
      · have h' : Event.note_on part ∈
            (if v.isEmpty = true then ([] : List Event)
              else [Event.overridden_values_found a v]) := h
        by_cases hv : v.isEmpty
        · rw [if_pos hv] at h'
          exact (List.not_mem_nil _) h'
        · rw [if_neg hv] at h'
          exact Event.noConfusion (List.mem_singleton.mp h')
    · by_cases he : (p.grid a p.current_step_number).enabled
      · rw [if_pos he] at h
        have h1 := List.mem_singleton.mp h
        injection h1 with h2
        exact ⟨h2.symm, he⟩
      · rw [if_neg he] at h
        exact absurd h (List.not_mem_nil _)
  · rintro ⟨rfl, he⟩
    right
    rw [if_pos he]
    exact List.mem_singleton.mpr rfl

lemma ov_mem_tickEvents (p : Parts) (part a : Nat) (v : Payload) :
    Event.overridden_values_found part v ∈ tickEvents p a ↔
      a = part ∧ (p.grid a p.current_step_number).get_overridden_values = some v ∧
        ¬ v.isEmpty = true := by
  unfold tickEvents
  rw [List.mem_append]
  constructor
  · rintro (h | h)
    · rcases hov : (p.grid a p.current_step_number).get_overridden_values with _ | w <;>
        rw [hov] at h
      · exact absurd h (List.not_mem_nil _)
      · have h' : Event.overridden_values_found part v ∈
            (if w.isEmpty = true then ([] : List Event)
              else [Event.overridden_values_found a w]) := h
        by_cases hw : w.isEmpty
        · rw [if_pos hw] at h'
          exact absurd h' (List.not_mem_nil _)
        · rw [if_neg hw] at h'
          have h1 := List.mem_singleton.mp h'
          injection h1 with h2 h3
          subst h2
          subst h3
          exact ⟨rfl, rfl, hw⟩
    · exfalso
      by_cases he : (p.grid a p.current_step_number).enabled
      · rw [if_pos he] at h
        exact Event.noConfusion (List.mem_singleton.mp h)
      · rw [if_neg he] at h
        exact (List.not_mem_nil _) h
  · rintro ⟨rfl, hov, hv⟩
    left
    rw [hov]
    show Event.overridden_values_found a v ∈
      if v.isEmpty = true then [] else [Event.overridden_values_found a v]
    rw [if_neg hv]
    exact List.mem_singleton.mpr rfl

lemma do_step_foldlM (p : Parts) (hc1 : 1 ≤ p.current_step_number)
    (hc2 : p.current_step_number ≤ p.step_count) :
    ∀ (l : List Nat), (∀ part ∈ l, 1 ≤ part ∧ part ≤ 6) → ∀ (acc : List Event),
      l.foldlM (do_step_part p) acc = .ok (acc ++ l.flatMap (tickEvents p)) := by
  intro l
  induction l with
  | nil =>
      intro _ acc
      rw [List.flatMap_nil, List.append_nil]
      rfl
  | cons hd tl ih =>
      intro hb acc
      obtain ⟨hb1, hb2⟩ := hb hd (List.mem_cons_self hd tl)
      rw [List.foldlM_cons]
      have hstep : do_step_part p acc hd = .ok (acc ++ tickEvents p hd) := by
        unfold do_step_part
        rw [step_at_ok hb1 hb2 hc1 hc2]
        unfold tickEvents
        show Except.ok _ = _
        rcases (p.grid hd p.current_step_number).get_overridden_values with _ | v
        · split_ifs <;> simp [ovEvents]
        · by_cases hv : v.isEmpty <;> split_ifs <;> simp_all [ovEvents]
      rw [hstep]
      show tl.foldlM (do_step_part p) (acc ++ tickEvents p hd) = _
      rw [ih (fun part hpart => hb part (List.mem_cons_of_mem hd hpart)),
        List.flatMap_cons, List.append_assoc]

/-- C3: one tick, fired while the clock is running, reads the cell
`(part, current_step)` of every checked part in order: it emits the
`overridden_values_found` event exactly for the parts whose cell carries a
(non-empty, per the data-model invariant) override payload and the `note_on`
event exactly for the parts whose cell is enabled; afterwards the playhead
advances by one, wrapping to 1 past the last step.  In particular, with only
part 1 enabled at step 5 and the playhead at 5, the tick emits exactly
`[note_on 1]` and moves the playhead to 6. -/
theorem C3_tick (p : Parts) (hrun : p.timerActive = true)
    (hc1 : 1 ≤ p.current_step_number) (hc2 : p.current_step_number ≤ p.step_count)
    (hov : ∀ part ∈ part_numbers, ∀ v,
      (p.grid part p.current_step_number).get_overridden_values = some v → ¬ v.isEmpty = true) :
    (∃ events, p.do_step = .ok
        ({ p with current_step_number :=
            if p.current_step_number = p.step_count then 1 else p.current_step_number + 1 },
          events) ∧
      events = (part_numbers.filter (fun part => p.partChecked part)).flatMap (tickEvents p) ∧
      (∀ part, Event.note_on part ∈ events ↔
        part ∈ part_numbers ∧ p.partChecked part = true ∧
          (p.grid part p.current_step_number).enabled = true) ∧
      (∀ part v, Event.overridden_values_found part v ∈ events ↔
        part ∈ part_numbers ∧ p.partChecked part = true ∧
          (p.grid part p.current_step_number).get_overridden_values = some v)) ∧
    ({ pattern16 with current_step_number := 5 } : Parts).do_step.map
        (fun r => ((r.1).current_step_number, r.2)) = .ok (6, [Event.note_on 1]) := by
  refine ⟨?_, by decide⟩
  refine ⟨(part_numbers.filter (fun part => p.partChecked part)).flatMap (tickEvents p),
    ?_, rfl, ?_, ?_⟩
  · simp only [Parts.do_step]
    rw [do_step_foldlM p hc1 hc2 _
      (fun part hpart => mem_part_numbers_bounds (List.mem_filter.mp hpart).1) []]
    show (do
      let p1 ← p.go_to
        (if p.current_step_number = p.step_count then 1 else p.current_step_number + 1)
      pure (p1, [] ++ _) : Except String (Parts × List Event)) = _
    rw [go_to_ok (by split_ifs <;> omega) (by split_ifs <;> omega)]
    rw [List.nil_append]
    rfl
  · intro part
    simp only [List.mem_flatMap, List.mem_filter]
    constructor
    · rintro ⟨a, ⟨hamem, hachk⟩, hin⟩
      obtain ⟨rfl, hen⟩ := (note_on_mem_tickEvents p part a).mp hin
      exact ⟨hamem, hachk, hen⟩
    · rintro ⟨hmem, hchk, hen⟩
      exact ⟨part, ⟨hmem, hchk⟩, (note_on_mem_tickEvents p part part).mpr ⟨rfl, hen⟩⟩
  · intro part v
    simp only [List.mem_flatMap, List.mem_filter]
    constructor
    · rintro ⟨a, ⟨hamem, hachk⟩, hin⟩
      obtain ⟨rfl, hsome, _⟩ := (ov_mem_tickEvents p part a v).mp hin
      exact ⟨hamem, hachk, hsome⟩
    · rintro ⟨hmem, hchk, hsome⟩
      exact ⟨part, ⟨hmem, hchk⟩,
        (ov_mem_tickEvents p part part v).mpr ⟨rfl, hsome, hov part hmem v hsome⟩⟩

/-- Witness for C3 at the pattern engine playing step 5. -/
theorem C3_tick_witness :
    (({ pattern16 with current_step_number := 5, timerActive := true } : Parts).timerActive = true ∧
      1 ≤ ({ pattern16 with current_step_number := 5, timerActive := true } : Parts).current_step_number ∧
      ({ pattern16 with current_step_number := 5, timerActive := true } : Parts).current_step_number ≤
        ({ pattern16 with current_step_number := 5, timerActive := true } : Parts).step_count) ∧
    (∃ events, ({ pattern16 with current_step_number := 5, timerActive := true } : Parts).do_step = .ok
        ({ ({ pattern16 with current_step_number := 5, timerActive := true } : Parts) with
            current_step_number :=
              if ({ pattern16 with current_step_number := 5, timerActive := true } : Parts).current_step_number =
                ({ pattern16 with current_step_number := 5, timerActive := true } : Parts).step_count
              then 1
              else ({ pattern16 with current_step_number := 5, timerActive := true } : Parts).current_step_number + 1 },
          events) ∧
      events = (part_numbers.filter (fun part =>
        ({ pattern16 with current_step_number := 5, timerActive := true } : Parts).partChecked part)).flatMap
          (tickEvents ({ pattern16 with current_step_number := 5, timerActive := true } : Parts)) ∧
      (∀ part, Event.note_on part ∈ events ↔
        part ∈ part_numbers ∧
          ({ pattern16 with current_step_number := 5, timerActive := true } : Parts).partChecked part = true ∧
          (({ pattern16 with current_step_number := 5, timerActive := true } : Parts).grid part
            ({ pattern16 with current_step_number := 5, timerActive := true } : Parts).current_step_number).enabled = true) ∧
      (∀ part v, Event.overridden_values_found part v ∈ events ↔
        part ∈ part_numbers ∧
          ({ pattern16 with current_step_number := 5, timerActive := true } : Parts).partChecked part = true ∧
          (({ pattern16 with current_step_number := 5, timerActive := true } : Parts).grid part
            ({ pattern16 with current_step_number := 5, timerActive := true } : Parts).current_step_number).get_overridden_values
              = some v)) :=
  ⟨⟨by decide, by decide, by decide⟩,
    (C3_tick { pattern16 with current_step_number := 5, timerActive := true } (by decide)
      (by decide) (by decide)
      (by
        intro part hmem v hv
        revert hv
        show (pattern16.grid part 5).get_overridden_values = some v → ¬ v.isEmpty = true
        unfold pattern16
        show ((if part = 1 ∧ (5 = 1 ∨ 5 = 5 ∨ 5 = 9 ∨ 5 = 13) then
            { fresh16.grid part 5 with enabled := true }
          else fresh16.grid part 5)).get_overridden_values = some v → ¬ v.isEmpty = true
        split_ifs <;> intro h <;> exact Option.noConfusion h)).1⟩


/-! ## C8 — empty override payloads -/

lemma get_set_overridden (st : Step) (o : Option Payload) :
    (st.set_overridden_values o).get_overridden_values = o := rfl

lemma ovEvents_empty (a : Nat) {pay : Payload} (h : pay.isEmpty = true) :
    ovEvents a (some pay) = ovEvents a none := by
  show (if pay.isEmpty = true then [] else [Event.overridden_values_found a pay]) =
    ([] : List Event)
  rw [if_pos h]

/-- `store` only looks at the grid through the checked flag and the truthy
override entries, so two engines agreeing on those (and the scalar fields)
store identically. -/
lemma store_congr (p q : Parts)
    (hsc : p.step_count = q.step_count) (hbpm : p.bpm = q.bpm) (hint : p.interval = q.interval)
    (hchk : ∀ a, p.partChecked a = q.partChecked a)
    (hen : ∀ a s, (p.grid a s).enabled = (q.grid a s).enabled)
    (hov : ∀ a s, store_override_entry p a s = store_override_entry q a s) :
    p.store = q.store := by
  have e1 : part_numbers.map (fun part => (part_key part,
      (List.range' 1 p.step_count).filter (fun s => (p.grid part s).enabled))) =
    part_numbers.map (fun part => (part_key part,
      (List.range' 1 q.step_count).filter (fun s => (q.grid part s).enabled))) := by
    rw [← hsc]
    exact List.map_congr_left (fun a _ =>
      congrArg (fun l => (part_key a, l)) (List.filter_congr (fun s _ => hen a s)))
  have e2 : part_numbers.map (fun part => (part_key part,
      (List.range' 1 p.step_count).filterMap (store_override_entry p part))) =
    part_numbers.map (fun part => (part_key part,
      (List.range' 1 q.step_count).filterMap (store_override_entry q part))) := by
    rw [← hsc]
    exact List.map_congr_left (fun a _ =>
      congrArg (fun l => (part_key a, l)) (List.filterMap_congr (fun s _ => hov a s)))
  have e3 : part_numbers.filter (fun part => p.partChecked part) =
      part_numbers.filter (fun part => q.partChecked part) :=
    List.filter_congr (fun a _ => hchk a)
  have e4 : p.tempo = q.tempo := by
    unfold Parts.tempo
    rw [hint]
  unfold Parts.store
  rw [e1, e2, e3, e4, hsc, hbpm]

lemma set_empty_store_eq (p : Parts) (part step : Nat) (pay : Payload)
    (hpay : pay.isEmpty = true) :
    ({ p with grid := updGrid p.grid part step ((p.grid part step).set_overridden_values (some pay)) } : Parts).store =
    ({ p with grid := updGrid p.grid part step ((p.grid part step).set_overridden_values none) } : Parts).store := by
  refine store_congr _ _ rfl rfl rfl (fun a => rfl) (fun a s => ?_) (fun a s => ?_)
  · show (if a = part ∧ s = step then (p.grid part step).set_overridden_values (some pay)
        else p.grid a s).enabled =
      (if a = part ∧ s = step then (p.grid part step).set_overridden_values none
        else p.grid a s).enabled
    split_ifs <;> rfl
  · by_cases h : a = part ∧ s = step
    · unfold store_override_entry
      rw [show ({ p with grid := updGrid p.grid part step ((p.grid part step).set_overridden_values (some pay)) } : Parts).grid a s =
          (p.grid part step).set_overridden_values (some pay) from by
        show (if a = part ∧ s = step then (p.grid part step).set_overridden_values (some pay)
            else p.grid a s) = _
        rw [if_pos h]]
      rw [show ({ p with grid := updGrid p.grid part step ((p.grid part step).set_overridden_values none) } : Parts).grid a s =
          (p.grid part step).set_overridden_values none from by
        show (if a = part ∧ s = step then (p.grid part step).set_overridden_values none
            else p.grid a s) = _
        rw [if_pos h]]
      rw [get_set_overridden, get_set_overridden]
      show (if pay.isEmpty = true then (none : Option (Nat × Payload)) else some (s, pay)) = none
      rw [if_pos hpay]
    · unfold store_override_entry
      rw [show ({ p with grid := updGrid p.grid part step ((p.grid part step).set_overridden_values (some pay)) } : Parts).grid a s =
          p.grid a s from by
        show (if a = part ∧ s = step then (p.grid part step).set_overridden_values (some pay)
            else p.grid a s) = _
        rw [if_neg h]]
      rw [show ({ p with grid := updGrid p.grid part step ((p.grid part step).set_overridden_values none) } : Parts).grid a s =
          p.grid a s from by
        show (if a = part ∧ s = step then (p.grid part step).set_overridden_values none
            else p.grid a s) = _
        rw [if_neg h]]

lemma tickEvents_ext (p q : Parts) (a : Nat)
    (hov : ovEvents a ((p.grid a p.current_step_number).get_overridden_values) =
      ovEvents a ((q.grid a q.current_step_number).get_overridden_values))
    (hen : (p.grid a p.current_step_number).enabled = (q.grid a q.current_step_number).enabled) :
    tickEvents p a = tickEvents q a := by
  unfold tickEvents
  rw [hov, hen]

/-- The event list of one tick, as seen through `Except.map`. -/
lemma do_step_map_events (p : Parts) (hc1 : 1 ≤ p.current_step_number)
    (hc2 : p.current_step_number ≤ p.step_count) :
    p.do_step.map (fun r => r.2) =
      .ok ((part_numbers.filter (fun part => p.partChecked part)).flatMap (tickEvents p)) := by
  simp only [Parts.do_step]
  rw [do_step_foldlM p hc1 hc2 _
    (fun part hpart => mem_part_numbers_bounds (List.mem_filter.mp hpart).1) []]
  show Except.map _ (do
    let p1 ← p.go_to
      (if p.current_step_number = p.step_count then 1 else p.current_step_number + 1)
    pure (p1, [] ++ (part_numbers.filter (fun part => p.partChecked part)).flatMap (tickEvents p))
      : Except String (Parts × List Event)) = _
  rw [go_to_ok (by split_ifs <;> omega) (by split_ifs <;> omega)]
  rw [List.nil_append]
  rfl

lemma set_empty_do_step_eq (p : Parts) (part step : Nat) (pay : Payload)
    (hpay : pay.isEmpty = true)
    (hc1 : 1 ≤ p.current_step_number) (hc2 : p.current_step_number ≤ p.step_count) :
    ({ p with grid := updGrid p.grid part step ((p.grid part step).set_overridden_values (some pay)) } : Parts).do_step.map
          (fun r => r.2) =
    ({ p with grid := updGrid p.grid part step ((p.grid part step).set_overridden_values none) } : Parts).do_step.map
          (fun r => r.2) := by
  rw [do_step_map_events { p with grid := updGrid p.grid part step ((p.grid part step).set_overridden_values (some pay)) } hc1 hc2]
  rw [do_step_map_events { p with grid := updGrid p.grid part step ((p.grid part step).set_overridden_values none) } hc1 hc2]
  have htick : ∀ a, tickEvents { p with grid := updGrid p.grid part step ((p.grid part step).set_overridden_values (some pay)) } a =
      tickEvents { p with grid := updGrid p.grid part step ((p.grid part step).set_overridden_values none) } a := by
    intro a
    refine tickEvents_ext _ _ a ?_ ?_
    · show ovEvents a ((if a = part ∧ p.current_step_number = step
          then (p.grid part step).set_overridden_values (some pay)
          else p.grid a p.current_step_number).get_overridden_values) =
        ovEvents a ((if a = part ∧ p.current_step_number = step
          then (p.grid part step).set_overridden_values none
          else p.grid a p.current_step_number).get_overridden_values)
      split_ifs with h
      · show ovEvents a (some pay) = ovEvents a none
        exact ovEvents_empty a hpay
      · rfl
    · show (if a = part ∧ p.current_step_number = step
          then (p.grid part step).set_overridden_values (some pay)
          else p.grid a p.current_step_number).enabled =
        (if a = part ∧ p.current_step_number = step
          then (p.grid part step).set_overridden_values none
          else p.grid a p.current_step_number).enabled
      split_ifs <;> rfl
  rw [funext htick]

lemma store_overridden_sound (p : Parts) (cs : List (String × List (Nat × Payload)))
    (h : p.store.overridden_controls = some cs) :
    cs ≠ [] ∧ ∀ kv ∈ cs, kv.2 ≠ [] ∧ ∀ sv ∈ kv.2, (sv.2).isEmpty = false := by
  simp only [Parts.store] at h
  split_ifs at h with hemp
  injection h with h
  subst h
  constructor
  · intro hnil
    rw [hnil] at hemp
    exact hemp rfl
  · intro kv hkv
    obtain ⟨hkvmem, hkvne⟩ := List.mem_filter.mp hkv
    refine ⟨fun h2 => ?_, fun sv hsv => ?_⟩
    · rw [h2] at hkvne
      exact Bool.noConfusion hkvne
    · obtain ⟨a, hamem, hfa⟩ := List.mem_map.mp hkvmem
      subst hfa
      have hsv2 : sv ∈ (List.range' 1 p.step_count).filterMap (store_override_entry p a) := hsv
      obtain ⟨s, hsmem, hfs⟩ := List.mem_filterMap.mp hsv2
      unfold store_override_entry at hfs
      rcases hg : (p.grid a s).get_overridden_values with _ | v <;> rw [hg] at hfs
      · exact Option.noConfusion hfs
      · have hfs2 : (if v.isEmpty = true then (none : Option (Nat × Payload))
            else some (s, v)) = some sv := hfs
        by_cases hv : v.isEmpty
        · rw [if_pos hv] at hfs2
          exact Option.noConfusion hfs2
        · rw [if_neg hv] at hfs2
          injection hfs2 with hfs3
          rw [← hfs3]
          exact Bool.eq_false_iff.mpr hv

lemma store_enabled_sound (p : Parts) (es : List (String × List Nat))
    (h : p.store.enabled_steps = some es) :
    es ≠ [] ∧ ∀ kv ∈ es, kv.2 ≠ [] := by
  simp only [Parts.store] at h
  split_ifs at h with hemp
  injection h with h
  subst h
  constructor
  · intro hnil
    rw [hnil] at hemp
    exact hemp rfl
  · intro kv hkv h2
    obtain ⟨_, hkvne⟩ := List.mem_filter.mp hkv
    rw [h2] at hkvne
    exact Bool.noConfusion hkvne

/-- C8 counterexample: setting an empty payload on a cell keeps the empty
mapping verbatim in the cell property, so the observable override afterwards
is the empty mapping, not absent, contradicting the claim that after a
set_override with an empty/falsy payload the cell's observable override is
absent. -/
theorem C8_counterexample :
    ((freshStep false).set_overridden_values (some [])).get_overridden_values = some [] ∧
    ¬ ((freshStep false).set_overridden_values (some [])).get_overridden_values = none :=
  ⟨rfl, fun hc => Option.noConfusion hc⟩

/-- C8 (amended): an empty/falsy override payload is *observationally*
equivalent to no override: the stored document and the events of a tick are
identical between an engine whose cell was set to an empty payload and one
whose cell was cleared — although the raw cell property keeps the empty
mapping rather than becoming absent.  The stored document's
`overridden-controls` section carries only non-empty payloads, and the
`enabled-steps` / `overridden-controls` keys are omitted entirely when
nothing remains. -/
theorem C8_empty_override (p : Parts) (part step : Nat) (pay : Payload)
    (hpay : pay.isEmpty = true)
    (hc1 : 1 ≤ p.current_step_number) (hc2 : p.current_step_number ≤ p.step_count) :
    ({ p with grid := updGrid p.grid part step ((p.grid part step).set_overridden_values (some pay)) } : Parts).store =
      ({ p with grid := updGrid p.grid part step ((p.grid part step).set_overridden_values none) } : Parts).store ∧
    ({ p with grid := updGrid p.grid part step ((p.grid part step).set_overridden_values (some pay)) } : Parts).do_step.map
          (fun r => r.2) =
      ({ p with grid := updGrid p.grid part step ((p.grid part step).set_overridden_values none) } : Parts).do_step.map
          (fun r => r.2) ∧
    (∀ cs, p.store.overridden_controls = some cs →
      cs ≠ [] ∧ ∀ kv ∈ cs, kv.2 ≠ [] ∧ ∀ sv ∈ kv.2, (sv.2).isEmpty = false) ∧
    (∀ es, p.store.enabled_steps = some es → es ≠ [] ∧ ∀ kv ∈ es, kv.2 ≠ []) :=
  ⟨set_empty_store_eq p part step pay hpay,
    set_empty_do_step_eq p part step pay hpay hc1 hc2,
    fun cs h => store_overridden_sound p cs h,
    fun es h => store_enabled_sound p es h⟩

/-- Witness for C8 at the fresh 16-step engine, cell (1,1), empty payload. -/
theorem C8_empty_override_witness :
    (([] : Payload).isEmpty = true ∧ 1 ≤ fresh16.current_step_number ∧
      fresh16.current_step_number ≤ fresh16.step_count) ∧
    (({ fresh16 with grid := updGrid fresh16.grid 1 1 ((fresh16.grid 1 1).set_overridden_values (some [])) } : Parts).store =
      ({ fresh16 with grid := updGrid fresh16.grid 1 1 ((fresh16.grid 1 1).set_overridden_values none) } : Parts).store ∧
    ({ fresh16 with grid := updGrid fresh16.grid 1 1 ((fresh16.grid 1 1).set_overridden_values (some [])) } : Parts).do_step.map
          (fun r => r.2) =
      ({ fresh16 with grid := updGrid fresh16.grid 1 1 ((fresh16.grid 1 1).set_overridden_values none) } : Parts).do_step.map
          (fun r => r.2) ∧
    (∀ cs, fresh16.store.overridden_controls = some cs →
      cs ≠ [] ∧ ∀ kv ∈ cs, kv.2 ≠ [] ∧ ∀ sv ∈ kv.2, (sv.2).isEmpty = false) ∧
    (∀ es, fresh16.store.enabled_steps = some es → es ≠ [] ∧ ∀ kv ∈ es, kv.2 ≠ [])) :=
  ⟨⟨rfl, by decide, by decide⟩,
    C8_empty_override fresh16 1 1 [] rfl (by decide) (by decide)⟩


/-! ## C5 — restore defaults -/

/-- The scalar (non-grid) observable fields of an engine, bundled so that
preservation through the restore loops is a single equation. -/
def scalars (p : Parts) : Nat × Nat × Nat × Nat × Bool × (Nat → Bool) :=
  (p.step_count, p.bpm, p.current_step_number, p.interval, p.timerActive, p.partChecked)

lemma except_bind_ok {α β : Type} {x : Except String α} {f : α → Except String β} {b : β}
    (h : (x >>= f) = .ok b) : ∃ a, x = .ok a ∧ f a = .ok b := by
  rcases x with e | a
  · exact Except.noConfusion h
  · exact ⟨a, rfl, h⟩

lemma foldlM_scalars {α : Type} {f : Parts → α → Except String Parts}
    (hf : ∀ q x q2, f q x = .ok q2 → scalars q2 = scalars q) :
    ∀ (l : List α) (q q2 : Parts), l.foldlM f q = .ok q2 → scalars q2 = scalars q := by
  intro l
  induction l with
  | nil =>
      intro q q2 h
      have h2 : (Except.ok q : Except String Parts) = .ok q2 := h
      injection h2 with h2
      rw [h2]
  | cons hd tl ih =>
      intro q q2 h
      rw [List.foldlM_cons] at h
      obtain ⟨qmid, h1, h2⟩ := except_bind_ok h
      exact (ih qmid q2 h2).trans (hf q hd qmid h1)

lemma restore_enable_step_scalars (part : Nat) (q : Parts) (x : Nat) (q2 : Parts)
    (h : restore_enable_step part q x = .ok q2) : scalars q2 = scalars q := by
  unfold restore_enable_step at h
  obtain ⟨st, h1, h2⟩ := except_bind_ok h
  have h3 : (Except.ok { q with grid := updGrid q.grid part x { st with enabled := true } } :
      Except String Parts) = .ok q2 := h2
  injection h3 with h3
  rw [← h3]
  rfl

lemma restore_override_step_scalars (part : Nat) (q : Parts) (kv : Nat × Payload) (q2 : Parts)
    (h : restore_override_step part q kv = .ok q2) : scalars q2 = scalars q := by
  unfold restore_override_step at h
  obtain ⟨st, h1, h2⟩ := except_bind_ok h
  have h3 : (Except.ok { q with
      grid := updGrid q.grid part kv.1 (st.set_overridden_values (some kv.2)) } :
      Except String Parts) = .ok q2 := h2
  injection h3 with h3
  rw [← h3]
  rfl

lemma restore_part_scalars (d : Document) (sc : Nat) (q q2 : Parts) (part : Nat)
    (h : restore_part d sc q part = .ok q2) : scalars q2 = scalars q := by
  unfold restore_part at h
  obtain ⟨qmid, h1, h2⟩ := except_bind_ok h
  exact (foldlM_scalars (restore_override_step_scalars part) _ qmid q2 h2).trans
    (foldlM_scalars (restore_enable_step_scalars part) _ q qmid h1)

lemma init_ok_fields (sc_val b_val : JVal) (p : Parts) (h : Parts.init sc_val b_val = .ok p) :
    ∃ sc b, check_int_value_j "initial_step_count" sc_val
        (some min_step_count) (some max_step_count) = .ok sc ∧
      check_int_value_j "initial_bpm" b_val (some 2) (some min_step_count) = .ok b ∧
      p = { step_count := sc, bpm := b, current_step_number := 1, interval := 60000 / 60,
            timerActive := false, partChecked := fun _ => true,
            grid := fun _ step => freshStep (decide ((step - 1) % b = 0)) } := by
  unfold Parts.init at h
  obtain ⟨sc, hsc, h⟩ := except_bind_ok h
  obtain ⟨b, hb, h⟩ := except_bind_ok h
  have h2 : (Except.ok
      { step_count := sc, bpm := b, current_step_number := 1,
        interval := 60000 / 60, timerActive := false, partChecked := fun _ => true,
        grid := fun _ step => freshStep (decide ((step - 1) % b = 0)) } :
      Except String Parts) = .ok p := h
  injection h2 with h2
  exact ⟨sc, b, hsc, hb, h2.symm⟩

/-- C5 counterexample: a malformed (non-integer) `tempo` field does not fall
back to 60 — `60000 // stored_values.get('tempo', 60)` raises a `TypeError`,
so restoration fails on a malformed field, contradicting totality. -/
theorem C5_counterexample :
    Parts.restore
      { step_count := some (.jint 16), beats_per_measure := none,
        tempo := some (.jstr "fast"), enabled_parts := none, enabled_steps := none,
        overridden_controls := none } =
      .error "unsupported operand type(s) for //: int and str" := by
  rfl

/-- C5 (amended): a document lacking the `step-count` key restores no engine;
an *absent* `tempo` defaults to 60, an absent `beats-per-measure` to 4 and an
absent `enabled-parts` to all six parts — but a *malformed* tempo raises a
`TypeError` from the integer division instead of defaulting. -/
theorem C5_restore_defaults (d : Document) :
    (d.step_count = none → Parts.restore d = .ok none) ∧
    (∀ q, Parts.restore d = .ok (some q) →
      (d.tempo = none → q.tempo = 60) ∧
      (d.beats_per_measure = none → q.bpm = 4) ∧
      (d.enabled_parts = none → ∀ a ∈ part_numbers, q.partChecked a = true)) ∧
    Parts.restore
      { step_count := some (.jint 16), beats_per_measure := none,
        tempo := some (.jstr "andante"), enabled_parts := none, enabled_steps := none,
        overridden_controls := none } =
      .error "unsupported operand type(s) for //: int and str" := by
  refine ⟨fun hnone => ?_, fun q hq => ?_, by rfl⟩
  · unfold Parts.restore
    rw [hnone]
    rfl
  · rcases hstep : d.step_count with _ | sc_val <;> rw [Parts.restore, hstep] at hq
    · exfalso
      have h2 : (Except.ok (none : Option Parts) : Except String (Option Parts)) =
          .ok (some q) := hq
      injection h2 with h2
      exact Option.noConfusion h2
    · obtain ⟨p0, hinit, hq⟩ := except_bind_ok hq
      obtain ⟨itv, hitv, hq⟩ := except_bind_ok hq
      obtain ⟨pfin, hfold, hpure⟩ := except_bind_ok hq
      have hpq : pfin = q := Option.some.inj (Except.ok.inj hpure)
      subst hpq
      have hscal := foldlM_scalars
        (fun q1 x q2 h => restore_part_scalars d p0.step_count q1 q2 x h)
        part_numbers _ pfin hfold
      obtain ⟨sc0, b0, hsc0, hb0, hp0⟩ := init_ok_fields _ _ p0 hinit
      refine ⟨fun htempo => ?_, fun hbm => ?_, fun hep a ha => ?_⟩
      · rw [htempo] at hitv
        have h60 : (Except.ok (60000 / 60 : Nat) : Except String Nat) = .ok itv := hitv
        injection h60 with h60
        have hqi : pfin.interval = itv := congrArg (fun t => t.2.2.2.1) hscal
        unfold Parts.tempo
        rw [hqi, ← h60]
      · rw [hbm] at hb0
        have h4 : (Except.ok (4 : Nat) : Except String Nat) = .ok b0 := hb0
        injection h4 with h4
        have hqb : pfin.bpm = p0.bpm := congrArg (fun t => t.2.1) hscal
        have hpb : p0.bpm = b0 := by rw [hp0]
        rw [hqb, hpb, ← h4]
      · have hchk : pfin.partChecked =
            (fun n => if 1 ≤ n ∧ n ≤ part_count
              then decide (n ∈ d.enabled_parts.getD part_numbers)
              else p0.partChecked n) := congrArg (fun t => t.2.2.2.2.2) hscal
        rw [congrFun hchk a, hep]
        obtain ⟨h1, h2⟩ := mem_part_numbers_bounds ha
        rw [if_pos ⟨h1, h2⟩]
        exact decide_eq_true ha

/-- Witness for C5: the empty document restores no engine; the document
carrying only a step count restores an engine with the default tempo 60,
default beats-per-measure 4 and part 1 checked. -/
theorem C5_restore_defaults_witness :
    Parts.restore
      { step_count := none, beats_per_measure := none, tempo := none,
        enabled_parts := none, enabled_steps := none, overridden_controls := none } = .ok none ∧
    ({ fresh16 with partChecked := fun n =>
        if 1 ≤ n ∧ n ≤ part_count then decide (n ∈ part_numbers) else true } : Parts).tempo = 60 ∧
    ({ fresh16 with partChecked := fun n =>
        if 1 ≤ n ∧ n ≤ part_count then decide (n ∈ part_numbers) else true } : Parts).bpm = 4 ∧
    ({ fresh16 with partChecked := fun n =>
        if 1 ≤ n ∧ n ≤ part_count then decide (n ∈ part_numbers) else true } : Parts).partChecked
      1 = true :=
  ⟨(C5_restore_defaults
      { step_count := none, beats_per_measure := none, tempo := none,
        enabled_parts := none, enabled_steps := none, overridden_controls := none }).1 rfl,
    ((C5_restore_defaults
      { step_count := some (.jint 16), beats_per_measure := none,
        tempo := none, enabled_parts := none, enabled_steps := none,
        overridden_controls := none }).2.1 _ (by rfl)).1 rfl,
    ((C5_restore_defaults
      { step_count := some (.jint 16), beats_per_measure := none,
        tempo := none, enabled_parts := none, enabled_steps := none,
        overridden_controls := none }).2.1 _ (by rfl)).2.1 rfl,
    ((C5_restore_defaults
      { step_count := some (.jint 16), beats_per_measure := none,
        tempo := none, enabled_parts := none, enabled_steps := none,
        overridden_controls := none }).2.1 _ (by rfl)).2.2 rfl 1 (by decide)⟩

/-! ## C1 — store/restore round trip -/

/-- The per-part list of enabled step numbers that `store` writes. -/
def enList (p : Parts) (a : Nat) : List Nat :=
  (List.range' 1 p.step_count).filter (fun s => (p.grid a s).enabled)

/-- The per-part association list of truthy override payloads that `store`
writes. -/
def ovList (p : Parts) (a : Nat) : List (Nat × Payload) :=
  (List.range' 1 p.step_count).filterMap (store_override_entry p a)

lemma enabled_set_overridden (st : Step) (o : Option Payload) :
    (st.set_overridden_values o).enabled = st.enabled := rfl

lemma lookup_none_of_forall_ne {α γ : Type} [BEq α] [LawfulBEq α] (x : α) :
    ∀ (l : List (α × γ)), (∀ kv ∈ l, ¬ kv.1 = x) → l.lookup x = none := by
  intro l
  induction l with
  | nil => intro _; rfl
  | cons kv tl ih =>
      intro h
      rw [List.lookup_cons,
        beq_eq_false_iff_ne.mpr (fun he => h kv (List.mem_cons_self kv tl) he.symm)]
      exact ih (fun kv2 hkv2 => h kv2 (List.mem_cons_of_mem kv hkv2))

/-- Looking a part's key up in the assoc list that `store` builds (mapped
over the parts, with the empty entries dropped) yields the part's own list
when it is non-empty, and nothing when it is empty. -/
lemma lookup_map_filter {γ : Type} (F : Nat → String) (val : Nat → List γ) :
    ∀ (keys : List Nat), (keys.map F).Nodup → ∀ x ∈ keys,
      ((keys.map (fun k => (F k, val k))).filter (fun kv => !kv.2.isEmpty)).lookup (F x) =
        if (val x).isEmpty then none else some (val x) := by
  intro keys
  induction keys with
  | nil => intro _ x hx; exact absurd hx (List.not_mem_nil x)
  | cons k ks ih =>
      intro hnd x hx
      obtain ⟨hk, hnd2⟩ := List.nodup_cons.mp hnd
      rw [List.map_cons, List.filter_cons]
      rcases List.mem_cons.mp hx with rfl | hx2
      · by_cases hv : (val x).isEmpty
        · rw [if_neg (by rw [hv]; exact Bool.false_ne_true), if_pos hv]
          refine lookup_none_of_forall_ne (F x) _ ?_
          intro kv hkv he
          obtain ⟨k2, hk2, hkv2⟩ := List.mem_map.mp (List.mem_of_mem_filter hkv)
          rw [← hkv2] at he
          have hmem : F k2 ∈ List.map F ks := List.mem_map_of_mem F hk2
          rw [show F k2 = F x from he] at hmem
          exact hk hmem
        · have hv2 : (val x).isEmpty = false := Bool.eq_false_iff.mpr hv
          rw [if_pos (by rw [hv2]; rfl), List.lookup_cons, beq_self_eq_true (F x), if_neg hv]
      · have hne : ¬ F x = F k := fun he => hk (he ▸ List.mem_map_of_mem F hx2)
        by_cases hv : (val k).isEmpty
        · rw [if_neg (by rw [hv]; exact Bool.false_ne_true)]
          exact ih hnd2 x hx2
        · have hv2 : (val k).isEmpty = false := Bool.eq_false_iff.mpr hv
          rw [if_pos (by rw [hv2]; rfl), List.lookup_cons, beq_eq_false_iff_ne.mpr hne]
          exact ih hnd2 x hx2

lemma part_numbers_keys_nodup : (part_numbers.map part_key).Nodup := by decide

/-- What the `enabled-steps` lookup of `restore` produces on a stored
document: exactly the list `store` collected for that part. -/
lemma store_enabled_lookup (p : Parts) (a : Nat) (ha : a ∈ part_numbers) :
    ((p.store.enabled_steps.getD []).lookup (part_key a)).getD [] = enList p a := by
  have hes : p.store.enabled_steps =
      if ((part_numbers.map (fun k => (part_key k, enList p k))).filter
          (fun kv => !kv.2.isEmpty)).isEmpty
      then none
      else some ((part_numbers.map (fun k => (part_key k, enList p k))).filter
          (fun kv => !kv.2.isEmpty)) := rfl
  rw [hes]
  by_cases hemp : ((part_numbers.map (fun k => (part_key k, enList p k))).filter
      (fun kv => !kv.2.isEmpty)).isEmpty
  · rw [if_pos hemp]
    have hnil := List.isEmpty_iff.mp hemp
    have hall := List.filter_eq_nil_iff.mp hnil
    have hmem : (part_key a, enList p a) ∈
        part_numbers.map (fun k => (part_key k, enList p k)) :=
      List.mem_map_of_mem (fun k => (part_key k, enList p k)) ha
    have hempty : (enList p a).isEmpty = true := by
      have h2 := hall (part_key a, enList p a) hmem
      rcases hb : (enList p a).isEmpty with _ | _
      · exact absurd (by rw [hb]; rfl) h2
      · rfl
    rw [List.isEmpty_iff.mp hempty]
    rfl
  · rw [if_neg hemp]
    show (((part_numbers.map (fun k => (part_key k, enList p k))).filter
        (fun kv => !kv.2.isEmpty)).lookup (part_key a)).getD [] = enList p a
    rw [lookup_map_filter part_key (enList p) part_numbers part_numbers_keys_nodup a ha]
    by_cases hv : (enList p a).isEmpty
    · rw [if_pos hv, List.isEmpty_iff.mp hv]
      rfl
    · rw [if_neg hv]
      rfl

/-- What the `overridden-controls` lookup of `restore` produces on a stored
document: exactly the assoc list `store` collected for that part. -/
lemma store_overridden_lookup (p : Parts) (a : Nat) (ha : a ∈ part_numbers) :
    ((p.store.overridden_controls.getD []).lookup (part_key a)).getD [] = ovList p a := by
  have hes : p.store.overridden_controls =
      if ((part_numbers.map (fun k => (part_key k, ovList p k))).filter
          (fun kv => !kv.2.isEmpty)).isEmpty
      then none
      else some ((part_numbers.map (fun k => (part_key k, ovList p k))).filter
          (fun kv => !kv.2.isEmpty)) := rfl
  rw [hes]
  by_cases hemp : ((part_numbers.map (fun k => (part_key k, ovList p k))).filter
      (fun kv => !kv.2.isEmpty)).isEmpty
  · rw [if_pos hemp]
    have hnil := List.isEmpty_iff.mp hemp
    have hall := List.filter_eq_nil_iff.mp hnil
    have hmem : (part_key a, ovList p a) ∈
        part_numbers.map (fun k => (part_key k, ovList p k)) :=
      List.mem_map_of_mem (fun k => (part_key k, ovList p k)) ha
    have hempty : (ovList p a).isEmpty = true := by
      have h2 := hall (part_key a, ovList p a) hmem
      rcases hb : (ovList p a).isEmpty with _ | _
      · exact absurd (by rw [hb]; rfl) h2
      · rfl
    rw [List.isEmpty_iff.mp hempty]
    rfl
  · rw [if_neg hemp]
    show (((part_numbers.map (fun k => (part_key k, ovList p k))).filter
        (fun kv => !kv.2.isEmpty)).lookup (part_key a)).getD [] = ovList p a
    rw [lookup_map_filter part_key (ovList p) part_numbers part_numbers_keys_nodup a ha]
    by_cases hv : (ovList p a).isEmpty
    · rw [if_pos hv, List.isEmpty_iff.mp hv]
      rfl
    · rw [if_neg hv]
      rfl

lemma store_override_entry_key (p : Parts) (a : Nat) :
    ∀ x kv, store_override_entry p a x = some kv → kv.1 = x := by
  intro x kv hfs
  unfold store_override_entry at hfs
  rcases hg : (p.grid a x).get_overridden_values with _ | v <;> rw [hg] at hfs
  · exact Option.noConfusion hfs
  · have hfs2 : (if v.isEmpty = true then (none : Option (Nat × Payload))
        else some (x, v)) = some kv := hfs
    by_cases hv : v.isEmpty
    · rw [if_pos hv] at hfs2
      exact Option.noConfusion hfs2
    · rw [if_neg hv] at hfs2
      injection hfs2 with hfs3
      rw [← hfs3]

lemma mem_ovList (p : Parts) (a : Nat) (kv : Nat × Payload) (h : kv ∈ ovList p a) :
    1 ≤ kv.1 ∧ kv.1 ≤ p.step_count := by
  unfold ovList at h
  obtain ⟨s, hs, hfs⟩ := List.mem_filterMap.mp h
  obtain ⟨h1, h2⟩ := of_mem_range1 hs
  rw [← store_override_entry_key p a s kv hfs] at h1 h2
  exact ⟨h1, h2⟩

lemma ovList_keys (p : Parts) (a : Nat) :
    (ovList p a).map Prod.fst =
      (List.range' 1 p.step_count).filter
        (fun s => payloadTruthy ((p.grid a s).get_overridden_values)) := by
  have hfun : ∀ s, (store_override_entry p a s).map Prod.fst =
      if payloadTruthy ((p.grid a s).get_overridden_values) = true then some s else none := by
    intro s
    unfold store_override_entry
    rcases hg : (p.grid a s).get_overridden_values with _ | v
    · rfl
    · show ((if v.isEmpty = true then (none : Option (Nat × Payload))
          else some (s, v)).map Prod.fst) =
        if (!v.isEmpty) = true then some s else none
      by_cases hv : v.isEmpty
      · rw [hv]
        rfl
      · have hv2 : v.isEmpty = false := Bool.eq_false_iff.mpr hv
        rw [hv2]
        rfl
  unfold ovList
  rw [List.map_filterMap]
  rw [show (fun s => (store_override_entry p a s).map Prod.fst) =
      (fun s => if payloadTruthy ((p.grid a s).get_overridden_values) = true
        then some s else none) from funext hfun]
  rw [← List.filterMap_eq_filter]
  rfl

lemma ovList_keys_nodup (p : Parts) (a : Nat) : ((ovList p a).map Prod.fst).Nodup := by
  rw [ovList_keys]
  exact (List.nodup_range' 1 p.step_count 1 (by norm_num)).filter _

lemma lookup_filterMap_keyed {β : Type} (f : Nat → Option (Nat × β))
    (hf : ∀ x kv, f x = some kv → kv.1 = x) :
    ∀ (l : List Nat), l.Nodup → ∀ s ∈ l, (l.filterMap f).lookup s = (f s).map Prod.snd := by
  intro l
  induction l with
  | nil => intro _ s hs; exact absurd hs (List.not_mem_nil s)
  | cons hd tl ih =>
      intro hnd s hs
      obtain ⟨hhd, hnd2⟩ := List.nodup_cons.mp hnd
      rw [List.filterMap_cons]
      rcases hfh : f hd with _ | kv
      · rcases List.mem_cons.mp hs with rfl | hs2
        · rw [hfh]
          refine lookup_none_of_forall_ne s _ ?_
          intro kv2 hkv2 he
          obtain ⟨x, hx, hfx⟩ := List.mem_filterMap.mp hkv2
          rw [hf x kv2 hfx] at he
          exact hhd (he ▸ hx)
        · exact ih hnd2 s hs2
      · have hkey := hf hd kv hfh
        rcases List.mem_cons.mp hs with rfl | hs2
        · rw [List.lookup_cons,
            show (s == kv.1) = true from by rw [hkey]; exact beq_self_eq_true s, hfh]
          rfl
        · have hne : ¬ s = kv.1 := by
            rw [hkey]
            exact fun he => hhd (he ▸ hs2)
          rw [List.lookup_cons, beq_eq_false_iff_ne.mpr hne]
          exact ih hnd2 s hs2

lemma lookup_ovList (p : Parts) (a s : Nat) (h1 : 1 ≤ s) (h2 : s ≤ p.step_count) :
    (ovList p a).lookup s = (store_override_entry p a s).map Prod.snd := by
  unfold ovList
  exact lookup_filterMap_keyed (store_override_entry p a) (store_override_entry_key p a)
    (List.range' 1 p.step_count) (List.nodup_range' 1 p.step_count 1 (by norm_num))
    s (mem_range1 h1 h2)

/-- The `enabled-steps` restore loop: every listed step of the part gets
checked, nothing else changes. -/
lemma enable_fold (part : Nat) (hp1 : 1 ≤ part) (hp2 : part ≤ 6) :
    ∀ (l : List Nat) (q : Parts), (∀ x ∈ l, 1 ≤ x ∧ x ≤ q.step_count) →
      ∃ q2, l.foldlM (restore_enable_step part) q = .ok q2 ∧
        scalars q2 = scalars q ∧
        ∀ a s, q2.grid a s =
          if a = part ∧ s ∈ l then { q.grid a s with enabled := true } else q.grid a s := by
  intro l
  induction l with
  | nil =>
      intro q _
      refine ⟨q, rfl, rfl, fun a s => ?_⟩
      rw [if_neg (fun hc => (List.not_mem_nil s) hc.2)]
  | cons hd tl ih =>
      intro q hb
      obtain ⟨hb1, hb2⟩ := hb hd (List.mem_cons_self hd tl)
      have hstep : restore_enable_step part q hd =
          .ok { q with grid := updGrid q.grid part hd { q.grid part hd with enabled := true } } := by
        unfold restore_enable_step
        rw [step_at_ok hp1 hp2 hb1 hb2]
        rfl
      obtain ⟨q2, hfold, hscal, hgrid⟩ :=
        ih { q with grid := updGrid q.grid part hd { q.grid part hd with enabled := true } }
          (fun x hx => hb x (List.mem_cons_of_mem hd hx))
      rw [List.foldlM_cons, hstep]
      refine ⟨q2, hfold, hscal, fun a s => ?_⟩
      have hP : ({ q with
          grid := updGrid q.grid part hd { q.grid part hd with enabled := true } } : Parts).grid
            a s =
          if a = part ∧ s = hd then { q.grid part hd with enabled := true } else q.grid a s := rfl
      rw [hgrid a s, hP]
      by_cases h1 : a = part
      · by_cases h2 : s = hd
        · rw [if_pos (show a = part ∧ s = hd from ⟨h1, h2⟩),
            if_pos (show a = part ∧ s ∈ hd :: tl from ⟨h1, List.mem_cons.mpr (Or.inl h2)⟩)]
          by_cases h3 : s ∈ tl
          · rw [if_pos (show a = part ∧ s ∈ tl from ⟨h1, h3⟩), h1, h2]
          · rw [if_neg (show ¬(a = part ∧ s ∈ tl) from fun hc => h3 hc.2), h1, h2]
        · rw [if_neg (show ¬(a = part ∧ s = hd) from fun hc => h2 hc.2)]
          by_cases h3 : s ∈ tl
          · rw [if_pos (show a = part ∧ s ∈ tl from ⟨h1, h3⟩),
              if_pos (show a = part ∧ s ∈ hd :: tl from ⟨h1, List.mem_cons_of_mem hd h3⟩)]
          · rw [if_neg (show ¬(a = part ∧ s ∈ tl) from fun hc => h3 hc.2),
              if_neg (show ¬(a = part ∧ s ∈ hd :: tl) from
                fun hc => (List.mem_cons.mp hc.2).elim h2 h3)]
      · rw [if_neg (show ¬(a = part ∧ s = hd) from fun hc => h1 hc.1),
          if_neg (show ¬(a = part ∧ s ∈ tl) from fun hc => h1 hc.1),
          if_neg (show ¬(a = part ∧ s ∈ hd :: tl) from fun hc => h1 hc.1)]

/-- The `overridden-controls` restore loop: with distinct step keys, each
listed cell of the part receives its payload, nothing else changes. -/
lemma override_fold (part : Nat) (hp1 : 1 ≤ part) (hp2 : part ≤ 6) :
    ∀ (l : List (Nat × Payload)) (q : Parts),
      (∀ kv ∈ l, 1 ≤ kv.1 ∧ kv.1 ≤ q.step_count) → (l.map Prod.fst).Nodup →
      ∃ q2, l.foldlM (restore_override_step part) q = .ok q2 ∧
        scalars q2 = scalars q ∧
        ∀ a s, q2.grid a s =
          if a = part then
            (match l.lookup s with
              | some v => (q.grid a s).set_overridden_values (some v)
              | none => q.grid a s)
          else q.grid a s := by
  intro l
  induction l with
  | nil =>
      intro q _ _
      refine ⟨q, rfl, rfl, fun a s => ?_⟩
      by_cases h1 : a = part
      · rw [if_pos h1]
        rfl
      · rw [if_neg h1]
  | cons kv tl ih =>
      intro q hb hnd
      obtain ⟨hb1, hb2⟩ := hb kv (List.mem_cons_self kv tl)
      obtain ⟨hk, hnd2⟩ := List.nodup_cons.mp hnd
      have hstep : restore_override_step part q kv =
          .ok ({ q with
            grid := updGrid q.grid part kv.1
              ((q.grid part kv.1).set_overridden_values (some kv.2)) }) := by
        unfold restore_override_step
        rw [step_at_ok hp1 hp2 hb1 hb2]
        rfl
      obtain ⟨q2, hfold, hscal, hgrid⟩ :=
        ih ({ q with
              grid := updGrid q.grid part kv.1
                ((q.grid part kv.1).set_overridden_values (some kv.2)) })
          (fun x hx => hb x (List.mem_cons_of_mem kv hx)) hnd2
      rw [List.foldlM_cons, hstep]
      refine ⟨q2, hfold, hscal, fun a s => ?_⟩
      have hP : ({ q with
          grid := updGrid q.grid part kv.1
            ((q.grid part kv.1).set_overridden_values (some kv.2)) } : Parts).grid a s =
          if a = part ∧ s = kv.1 then (q.grid part kv.1).set_overridden_values (some kv.2)
          else q.grid a s := rfl
      rw [hgrid a s, hP]
      by_cases h1 : a = part
      · rw [if_pos h1, if_pos h1]
        by_cases h2 : s = kv.1
        · have htl : tl.lookup s = none := by
            refine lookup_none_of_forall_ne s tl ?_
            intro kv2 hkv2 he
            exact hk ((he.trans h2) ▸ List.mem_map_of_mem Prod.fst hkv2)
          rw [htl, List.lookup_cons,
            show (s == kv.1) = true from by rw [h2]; exact beq_self_eq_true kv.1]
          show (if a = part ∧ s = kv.1 then (q.grid part kv.1).set_overridden_values (some kv.2)
              else q.grid a s) = (q.grid a s).set_overridden_values (some kv.2)
          rw [if_pos ⟨h1, h2⟩, h1, h2]
        · rw [List.lookup_cons, beq_eq_false_iff_ne.mpr h2,
            if_neg (show ¬(a = part ∧ s = kv.1) from fun hc => h2 hc.2)]
      · rw [if_neg h1, if_neg h1,
          if_neg (show ¬(a = part ∧ s = kv.1) from fun hc => h1 hc.1)]

/-- One pass of the restore loop body over a stored document: the part's row
is rebuilt exactly (checked flags and truthy payloads), other rows are left
alone. -/
lemma restore_part_store (p : Parts) (a : Nat) (ha : a ∈ part_numbers) (q : Parts)
    (hsc : q.step_count = p.step_count)
    (hov : ∀ s v, (p.grid a s).get_overridden_values = some v → v.isEmpty = false)
    (hrow : ∀ s, 1 ≤ s → s ≤ p.step_count →
      (q.grid a s).enabled = false ∧ (q.grid a s).overriddenValues = none) :
    ∃ q2, restore_part p.store p.step_count q a = .ok q2 ∧
      scalars q2 = scalars q ∧
      (∀ b s, ¬ b = a → q2.grid b s = q.grid b s) ∧
      (∀ s, 1 ≤ s → s ≤ p.step_count →
        (q2.grid a s).enabled = (p.grid a s).enabled ∧
        (q2.grid a s).get_overridden_values = (p.grid a s).get_overridden_values) := by
  obtain ⟨ha1, ha2⟩ := mem_part_numbers_bounds ha
  have hlen : ((p.store.enabled_steps.getD []).lookup (part_key a)).getD [] = enList p a :=
    store_enabled_lookup p a ha
  have hlov : ((p.store.overridden_controls.getD []).lookup (part_key a)).getD [] =
      ovList p a :=
    store_overridden_lookup p a ha
  have hfen : (enList p a).filter (fun x => x ≤ p.step_count) = enList p a := by
    refine List.filter_eq_self.mpr ?_
    intro s hs
    have hs2 : s ∈ (List.range' 1 p.step_count).filter (fun x => (p.grid a x).enabled) := hs
    exact decide_eq_true (of_mem_range1 (List.mem_of_mem_filter hs2)).2
  have hfov : (ovList p a).filter (fun kv => kv.1 ≤ p.step_count) = ovList p a := by
    refine List.filter_eq_self.mpr ?_
    intro kv hkv
    exact decide_eq_true (mem_ovList p a kv hkv).2
  have hen_mem : ∀ s, 1 ≤ s → s ≤ p.step_count →
      (s ∈ enList p a ↔ (p.grid a s).enabled = true) := by
    intro s h1 h2
    constructor
    · intro hs
      have hs2 : s ∈ (List.range' 1 p.step_count).filter (fun x => (p.grid a x).enabled) := hs
      exact (List.mem_filter.mp hs2).2
    · intro hs
      exact List.mem_filter.mpr ⟨mem_range1 h1 h2, hs⟩
  obtain ⟨qmid, hfold1, hscal1, hgrid1⟩ :=
    enable_fold a ha1 ha2 (enList p a) q
      (fun x hx => by
        have hx2 : x ∈ (List.range' 1 p.step_count).filter (fun s => (p.grid a s).enabled) := hx
        obtain ⟨h1, h2⟩ := of_mem_range1 (List.mem_of_mem_filter hx2)
        exact ⟨h1, by rw [hsc]; exact h2⟩)
  have hmsc : qmid.step_count = p.step_count := (congrArg (fun t => t.1) hscal1).trans hsc
  obtain ⟨q2, hfold2, hscal2, hgrid2⟩ :=
    override_fold a ha1 ha2 (ovList p a) qmid
      (fun kv hkv =>
        ⟨(mem_ovList p a kv hkv).1, by rw [hmsc]; exact (mem_ovList p a kv hkv).2⟩)
      (ovList_keys_nodup p a)
  refine ⟨q2, ?_, hscal2.trans hscal1, ?_, ?_⟩
  · show (do
      let q3 ← ((((p.store.enabled_steps.getD []).lookup (part_key a)).getD []).filter
        (fun x => x ≤ p.step_count)).foldlM (restore_enable_step a) q
      ((((p.store.overridden_controls.getD []).lookup (part_key a)).getD []).filter
        (fun kv => kv.1 ≤ p.step_count)).foldlM (restore_override_step a) q3
      : Except String Parts) = .ok q2
    rw [hlen, hfen, hlov, hfov, hfold1]
    exact hfold2
  · intro b s hb
    rw [hgrid2 b s, if_neg hb, hgrid1 b s, if_neg (fun hc => hb hc.1)]
  · intro s h1 h2
    constructor
    · rw [hgrid2 a s, if_pos rfl]
      rcases hl : (ovList p a).lookup s with _ | v
      · show (qmid.grid a s).enabled = (p.grid a s).enabled
        rw [hgrid1 a s]
        by_cases he : s ∈ enList p a
        · rw [if_pos ⟨rfl, he⟩, (hen_mem s h1 h2).mp he]
        · rw [if_neg (fun hc => he hc.2), (hrow s h1 h2).1]
          rcases hpe : (p.grid a s).enabled with _ | _
          · rfl
          · exact absurd ((hen_mem s h1 h2).mpr hpe) he
      · show ((qmid.grid a s).set_overridden_values (some v)).enabled = (p.grid a s).enabled
        rw [enabled_set_overridden, hgrid1 a s]
        by_cases he : s ∈ enList p a
        · rw [if_pos ⟨rfl, he⟩, (hen_mem s h1 h2).mp he]
        · rw [if_neg (fun hc => he hc.2), (hrow s h1 h2).1]
          rcases hpe : (p.grid a s).enabled with _ | _
          · rfl
          · exact absurd ((hen_mem s h1 h2).mpr hpe) he
    · rw [hgrid2 a s, if_pos rfl, lookup_ovList p a s h1 h2]
      rcases hg : (p.grid a s).get_overridden_values with _ | v
      · have hscrut : (store_override_entry p a s).map Prod.snd = (none : Option Payload) := by
          unfold store_override_entry
          rw [hg]
          rfl
        rw [hscrut]
        show (qmid.grid a s).get_overridden_values = none
        rw [hgrid1 a s]
        by_cases he : s ∈ enList p a
        · rw [if_pos ⟨rfl, he⟩]
          exact (hrow s h1 h2).2
        · rw [if_neg (fun hc => he hc.2)]
          exact (hrow s h1 h2).2
      · have hve : v.isEmpty = false := hov s v hg
        have hscrut : (store_override_entry p a s).map Prod.snd = some v := by
          unfold store_override_entry
          rw [hg]
          show ((if v.isEmpty = true then (none : Option (Nat × Payload))
              else some (s, v)).map Prod.snd) = some v
          rw [hve]
          rfl
        rw [hscrut]
        show ((qmid.grid a s).set_overridden_values (some v)).get_overridden_values = some v
        rw [get_set_overridden]

/-- The outer restore loop over the parts, on a stored document: every listed
part's row is rebuilt from the document, rows of parts outside the list are
untouched. -/
lemma restore_parts_fold (p : Parts)
    (hov : ∀ a ∈ part_numbers, ∀ s v,
      (p.grid a s).get_overridden_values = some v → v.isEmpty = false) :
    ∀ (l : List Nat), l.Nodup → (∀ a ∈ l, a ∈ part_numbers) → ∀ (q : Parts),
      q.step_count = p.step_count →
      (∀ a ∈ l, ∀ s, 1 ≤ s → s ≤ p.step_count →
        (q.grid a s).enabled = false ∧ (q.grid a s).overriddenValues = none) →
      ∃ q2, l.foldlM (restore_part p.store p.step_count) q = .ok q2 ∧
        scalars q2 = scalars q ∧
        (∀ b s, b ∉ l → q2.grid b s = q.grid b s) ∧
        (∀ a ∈ l, ∀ s, 1 ≤ s → s ≤ p.step_count →
          (q2.grid a s).enabled = (p.grid a s).enabled ∧
          (q2.grid a s).get_overridden_values = (p.grid a s).get_overridden_values) := by
  intro l
  induction l with
  | nil =>
      intro _ _ q hsc _
      exact ⟨q, rfl, rfl, fun b s _ => rfl, fun a ha => absurd ha (List.not_mem_nil a)⟩
  | cons hd tl ih =>
      intro hnd hmem q hsc hfresh
      obtain ⟨hhd, hnd2⟩ := List.nodup_cons.mp hnd
      obtain ⟨qmid, h1, hscal1, hrows1, hrowa⟩ :=
        restore_part_store p hd (hmem hd (List.mem_cons_self hd tl)) q hsc
          (hov hd (hmem hd (List.mem_cons_self hd tl)))
          (hfresh hd (List.mem_cons_self hd tl))
      rw [List.foldlM_cons, h1]
      obtain ⟨q2, h2, hscal2, hrows2, hdone⟩ :=
        ih hnd2 (fun a ha => hmem a (List.mem_cons_of_mem hd ha)) qmid
          ((congrArg (fun t => t.1) hscal1).trans hsc)
          (fun a ha s hs1 hs2 => by
            rw [hrows1 a s (fun hc => hhd (hc ▸ ha))]
            exact hfresh a (List.mem_cons_of_mem hd ha) s hs1 hs2)
      refine ⟨q2, h2, hscal2.trans hscal1, ?_, ?_⟩
      · intro b s hb
        rw [hrows2 b s (fun hc => hb (List.mem_cons_of_mem hd hc)),
          hrows1 b s (fun hc => hb (hc ▸ List.mem_cons_self hd tl))]
      · intro a ha s hs1 hs2
        rcases List.mem_cons.mp ha with rfl | ha2
        · rw [hrows2 a s hhd]
          exact hrowa s hs1 hs2
        · exact hdone a ha2 s hs1 hs2

/-- `restore` applied to a stored document, unfolded one step: the engine is
rebuilt from the stored step count and bpm, the interval from the clamped
tempo, the check boxes from the stored enabled parts, and the grid through
the per-part loop. -/
lemma restore_store_eq (p : Parts) :
    Parts.restore p.store =
      Parts.init (.jint p.step_count) (.jint p.bpm) >>= fun p0 =>
        floordiv_60000 (.jint (min 360 (max 60 p.tempo))) >>= fun itv =>
          (part_numbers.foldlM (restore_part p.store p0.step_count)
            ({ p0 with
                interval := itv,
                partChecked := fun n =>
                  if 1 ≤ n ∧ n ≤ part_count
                  then decide (n ∈ part_numbers.filter (fun x => p.partChecked x))
                  else p0.partChecked n })) >>= fun pfin =>
            pure (some pfin) := rfl

/-- C1 counterexample: for the engine obtained by `change_tempo(360)` the
actual tempo is `60000 // 166 = 361`; its clamped value is 360, yet the
round-tripped engine reports tempo 361, not the clamp. -/
theorem C1_counterexample :
    (fresh16.change_tempo 360).tempo = 361 ∧
    min 360 (max 60 (fresh16.change_tempo 360).tempo) = 360 ∧
    (Parts.restore (Parts.store (fresh16.change_tempo 360))).map
      (fun o => o.map Parts.tempo) = .ok (some 361) :=
  ⟨by decide, by decide, by decide⟩

/-- C1 (amended): for every engine with in-range step count and bpm whose
override payloads are all non-empty, `restore(store(e))` succeeds and
reproduces the step count, bpm, enabled parts and every cell's checked flag
and override payload; the interval becomes `60000 // clamp(tempo)` and the
reported tempo is therefore `60000 // (60000 // clamp(tempo))` — which can
exceed the clamp (see the counterexample), rather than being the clamped
tempo itself. -/
theorem C1_round_trip (p : Parts)
    (h1 : 16 ≤ p.step_count) (h2 : p.step_count ≤ 1024)
    (h3 : 2 ≤ p.bpm) (h4 : p.bpm ≤ 16)
    (hov : ∀ a ∈ part_numbers, ∀ s v,
      (p.grid a s).get_overridden_values = some v → v.isEmpty = false) :
    ∃ q, Parts.restore p.store = .ok (some q) ∧
      q.step_count = p.step_count ∧ q.bpm = p.bpm ∧
      q.interval = 60000 / min 360 (max 60 p.tempo) ∧
      q.tempo = 60000 / (60000 / min 360 (max 60 p.tempo)) ∧
      (∀ a ∈ part_numbers, q.partChecked a = p.partChecked a) ∧
      (∀ a ∈ part_numbers, ∀ s, 1 ≤ s → s ≤ p.step_count →
        (q.grid a s).enabled = (p.grid a s).enabled ∧
        (q.grid a s).get_overridden_values = (p.grid a s).get_overridden_values) := by
  have hinit := init_ok h1 h2 h3 h4
  have hz : ¬ (min 360 (max 60 p.tempo) = 0) := by
    have h60 : 60 ≤ min 360 (max 60 p.tempo) := le_min (by norm_num) (le_max_left 60 p.tempo)
    omega
  have hdiv : floordiv_60000 (.jint (min 360 (max 60 p.tempo))) =
      .ok (60000 / min 360 (max 60 p.tempo)) := by
    show (if min 360 (max 60 p.tempo) = 0
        then (Except.error "integer division or modulo by zero" : Except String Nat)
        else .ok (60000 / min 360 (max 60 p.tempo))) = .ok (60000 / min 360 (max 60 p.tempo))
    rw [if_neg hz]
  obtain ⟨q2, hfold, hscal, hrows, hcells⟩ :=
    restore_parts_fold p hov part_numbers (by decide) (fun a ha => ha)
      ({ step_count := p.step_count, bpm := p.bpm, current_step_number := 1,
         interval := 60000 / min 360 (max 60 p.tempo), timerActive := false,
         partChecked := fun n =>
           if 1 ≤ n ∧ n ≤ part_count
           then decide (n ∈ part_numbers.filter (fun x => p.partChecked x))
           else true,
         grid := fun _ step => freshStep (decide ((step - 1) % p.bpm = 0)) })
      rfl
      (fun a _ s _ _ => ⟨rfl, rfl⟩)
  have hstep2 : (part_numbers.foldlM (restore_part p.store p.step_count)
      ({ step_count := p.step_count, bpm := p.bpm, current_step_number := 1,
         interval := 60000 / min 360 (max 60 p.tempo), timerActive := false,
         partChecked := fun n =>
           if 1 ≤ n ∧ n ≤ part_count
           then decide (n ∈ part_numbers.filter (fun x => p.partChecked x))
           else true,
         grid := fun _ step => freshStep (decide ((step - 1) % p.bpm = 0)) })) >>=
      (fun pfin => pure (some pfin)) = (.ok (some q2) : Except String (Option Parts)) := by
    rw [hfold]
    rfl
  have hstep1 : (floordiv_60000 (.jint (min 360 (max 60 p.tempo))) >>= fun itv =>
      (part_numbers.foldlM (restore_part p.store p.step_count)
        ({ step_count := p.step_count, bpm := p.bpm, current_step_number := 1,
           interval := itv, timerActive := false,
           partChecked := fun n =>
             if 1 ≤ n ∧ n ≤ part_count
             then decide (n ∈ part_numbers.filter (fun x => p.partChecked x))
             else true,
           grid := fun _ step => freshStep (decide ((step - 1) % p.bpm = 0)) })) >>=
        fun pfin => pure (some pfin)) = (.ok (some q2) : Except String (Option Parts)) := by
    rw [hdiv]
    exact hstep2
  refine ⟨q2, ?_, ?_, ?_, ?_, ?_, ?_, hcells⟩
  · rw [restore_store_eq p, hinit]
    exact hstep1
  · exact (congrArg (fun t => t.1) hscal :)
  · exact (congrArg (fun t => t.2.1) hscal :)
  · exact (congrArg (fun t => t.2.2.2.1) hscal :)
  · have hint2 : q2.interval = 60000 / min 360 (max 60 p.tempo) :=
      congrArg (fun t => t.2.2.2.1) hscal
    show 60000 / q2.interval = 60000 / (60000 / min 360 (max 60 p.tempo))
    rw [hint2]
  · intro a ha
    have hchk : q2.partChecked a =
        (if 1 ≤ a ∧ a ≤ part_count
          then decide (a ∈ part_numbers.filter (fun x => p.partChecked x))
          else true) :=
      congrFun (congrArg (fun t => t.2.2.2.2.2) hscal) a
    rw [hchk,
      if_pos (show 1 ≤ a ∧ a ≤ part_count from
        ⟨(mem_part_numbers_bounds ha).1, (mem_part_numbers_bounds ha).2⟩)]
    by_cases hpa : p.partChecked a
    · rw [hpa]
      exact decide_eq_true (List.mem_filter.mpr ⟨ha, hpa⟩)
    · have hpa2 : p.partChecked a = false := Bool.eq_false_iff.mpr hpa
      rw [hpa2]
      exact decide_eq_false (fun hmem => hpa (List.mem_filter.mp hmem).2)

/-- Witness for C1 at the pattern engine. -/
theorem C1_round_trip_witness :
    (16 ≤ pattern16.step_count ∧ pattern16.step_count ≤ 1024 ∧
      2 ≤ pattern16.bpm ∧ pattern16.bpm ≤ 16) ∧
    (∃ q, Parts.restore pattern16.store = .ok (some q) ∧
      q.step_count = pattern16.step_count ∧ q.bpm = pattern16.bpm ∧
      q.interval = 60000 / min 360 (max 60 pattern16.tempo) ∧
      q.tempo = 60000 / (60000 / min 360 (max 60 pattern16.tempo)) ∧
      (∀ a ∈ part_numbers, q.partChecked a = pattern16.partChecked a) ∧
      (∀ a ∈ part_numbers, ∀ s, 1 ≤ s → s ≤ pattern16.step_count →
        (q.grid a s).enabled = (pattern16.grid a s).enabled ∧
        (q.grid a s).get_overridden_values = (pattern16.grid a s).get_overridden_values)) :=
  ⟨⟨by decide, by decide, by decide, by decide⟩,
    C1_round_trip pattern16 (by decide) (by decide) (by decide) (by decide)
      (by
        intro a ha s v
        show (pattern16.grid a s).get_overridden_values = some v → v.isEmpty = false
        unfold pattern16
        show ((if a = 1 ∧ (s = 1 ∨ s = 5 ∨ s = 9 ∨ s = 13) then
            { fresh16.grid a s with enabled := true }
          else fresh16.grid a s)).get_overridden_values = some v → v.isEmpty = false
        split_ifs <;> intro h <;> exact Option.noConfusion h)⟩

end PyVolcaDrum
